import Mathlib

/-!
Verification of the polywrap msgpack-serde codec core.

The byte stream is modelled as a `List Nat` (each entry one byte, < 256).
Readers are functions `List Nat → Except Err (α × List Nat)` returning the
parsed result together with the not-yet-consumed suffix of the buffer; the
cursor position reaching the end of the buffer corresponds to the remaining
suffix being `[]`.  Writers are pure functions producing byte lists.
-/

namespace MsgpackSerde

/-- Modelled from the spec: the error taxonomy of §7.  The crate's `error.rs`
under `src/` is a stale draft that does not match the variants used by the
deserializer in `de/mod.rs` (`ExpectedUInteger`, `ExpectedExt`, `ExpectedChar`,
…), so the error kinds are taken from the spec's taxonomy.  Message payloads
are omitted; only the kind of each failure matters here. -/
inductive Err
  | unexpectedEnd
  | trailingCharacters
  | expectedBoolean
  | expectedUInteger
  | expectedInteger
  | expectedFloat
  | expectedString
  | expectedChar
  | expectedBytes
  | expectedNull
  | expectedArray
  | expectedMap
  | expectedExt
  | expectedEnum
  | message
deriving DecidableEq, Repr

/-- Modelled from the spec: the wire-format tag table of §3/§4.1
(`format.rs` is not under `src/`; only its users are).  `FmtTrue`/`FmtFalse`
stand for the source's `True`/`False` variants, renamed to avoid clashing
with the propositions of the same name. -/
inductive Format
  | PositiveFixInt (v : Nat)
  | FixMap (n : Nat)
  | FixArray (n : Nat)
  | FixStr (n : Nat)
  | Nil
  | Reserved
  | FmtFalse
  | FmtTrue
  | Bin8 | Bin16 | Bin32
  | Ext8 | Ext16 | Ext32
  | Float32 | Float64
  | Uint8 | Uint16 | Uint32 | Uint64
  | Int8 | Int16 | Int32 | Int64
  | FixExt1 | FixExt2 | FixExt4 | FixExt8 | FixExt16
  | Str8 | Str16 | Str32
  | Array16 | Array32
  | Map16 | Map32
  | NegativeFixInt (v : Int)
deriving DecidableEq, Repr

namespace Format

/-- Modelled from the spec: the classification rule of §4.1, applied to a
single prefix byte.  The low-bit masks `b & 0x0f` / `b & 0x1f` are written as
`b % 16` / `b % 32`. -/
def ofByte (b : Nat) : Format :=
  if b ≤ 0x7f then .PositiveFixInt b
  else if b ≤ 0x8f then .FixMap (b % 16)
  else if b ≤ 0x9f then .FixArray (b % 16)
  else if b ≤ 0xbf then .FixStr (b % 32)
  else if b = 0xc0 then .Nil
  else if b = 0xc1 then .Reserved
  else if b = 0xc2 then .FmtFalse
  else if b = 0xc3 then .FmtTrue
  else if b = 0xc4 then .Bin8
  else if b = 0xc5 then .Bin16
  else if b = 0xc6 then .Bin32
  else if b = 0xc7 then .Ext8
  else if b = 0xc8 then .Ext16
  else if b = 0xc9 then .Ext32
  else if b = 0xca then .Float32
  else if b = 0xcb then .Float64
  else if b = 0xcc then .Uint8
  else if b = 0xcd then .Uint16
  else if b = 0xce then .Uint32
  else if b = 0xcf then .Uint64
  else if b = 0xd0 then .Int8
  else if b = 0xd1 then .Int16
  else if b = 0xd2 then .Int32
  else if b = 0xd3 then .Int64
  else if b = 0xd4 then .FixExt1
  else if b = 0xd5 then .FixExt2
  else if b = 0xd6 then .FixExt4
  else if b = 0xd7 then .FixExt8
  else if b = 0xd8 then .FixExt16
  else if b = 0xd9 then .Str8
  else if b = 0xda then .Str16
  else if b = 0xdb then .Str32
  else if b = 0xdc then .Array16
  else if b = 0xdd then .Array32
  else if b = 0xde then .Map16
  else if b = 0xdf then .Map32
  else .NegativeFixInt ((b : Int) - 256)

/-- Modelled from the spec: the inverse of the classification table (§4.1),
emitting the prefix byte with the `Fix*` parameter OR'ed into the low bits. -/
def to_u8 : Format → Nat
  | .PositiveFixInt v => v % 128
  | .FixMap n => 0x80 + n % 16
  | .FixArray n => 0x90 + n % 16
  | .FixStr n => 0xa0 + n % 32
  | .Nil => 0xc0
  | .Reserved => 0xc1
  | .FmtFalse => 0xc2
  | .FmtTrue => 0xc3
  | .Bin8 => 0xc4
  | .Bin16 => 0xc5
  | .Bin32 => 0xc6
  | .Ext8 => 0xc7
  | .Ext16 => 0xc8
  | .Ext32 => 0xc9
  | .Float32 => 0xca
  | .Float64 => 0xcb
  | .Uint8 => 0xcc
  | .Uint16 => 0xcd
  | .Uint32 => 0xce
  | .Uint64 => 0xcf
  | .Int8 => 0xd0
  | .Int16 => 0xd1
  | .Int32 => 0xd2
  | .Int64 => 0xd3
  | .FixExt1 => 0xd4
  | .FixExt2 => 0xd5
  | .FixExt4 => 0xd6
  | .FixExt8 => 0xd7
  | .FixExt16 => 0xd8
  | .Str8 => 0xd9
  | .Str16 => 0xda
  | .Str32 => 0xdb
  | .Array16 => 0xdc
  | .Array32 => 0xdd
  | .Map16 => 0xde
  | .Map32 => 0xdf
  | .NegativeFixInt v => (v % 256).toNat

/-- Reads and consumes one byte and classifies it (`Format::get_format`). -/
def get_format : List Nat → Except Err (Format × List Nat)
  | b :: rest => .ok (ofByte b, rest)
  | [] => .error .unexpectedEnd

/-- Appends the single prefix byte of a format (`Format::set_format`). -/
def set_format (f : Format) : List Nat := [f.to_u8]

/-- Modelled from the spec: prefix-byte range `0x00..=0x7f` (§4.1). -/
def is_positive_fixed_int (b : Nat) : Bool := b < 0x80

/-- Modelled from the spec: prefix-byte range `0xe0..=0xff` (§4.1). -/
def is_negative_fixed_int (b : Nat) : Bool := 0xe0 ≤ b && b ≤ 0xff

end Format

/-- Modelled from the spec: the extension-type tag (§3); the only defined
value in scope is `GenericMap` (value 1). -/
inductive ExtensionType
  | GenericMap
deriving DecidableEq, Repr

/-- `ExtensionType::GenericMap.into()` / `.to_u8()`: the byte 1. -/
def ExtensionType.toU8 : ExtensionType → Nat
  | .GenericMap => 1

/-- Modelled from the spec: the `TryFrom<u8>` conversion for the
extension-type byte; any byte other than 1 is an invalid extension type and
fails with a free-form `Message` error (§7). -/
def ExtensionType.ofU8 (b : Nat) : Except Err ExtensionType :=
  if b = 1 then .ok .GenericMap else .error .message

/-! ### Primitive big-endian readers and writers (`byteorder` calls) -/

def readU8 : List Nat → Except Err (Nat × List Nat)
  | b0 :: rest => .ok (b0, rest)
  | _ => .error .unexpectedEnd

def readU16 : List Nat → Except Err (Nat × List Nat)
  | b0 :: b1 :: rest => .ok (b0 * 256 + b1, rest)
  | _ => .error .unexpectedEnd

def readU32 : List Nat → Except Err (Nat × List Nat)
  | b0 :: b1 :: b2 :: b3 :: rest =>
    .ok (((b0 * 256 + b1) * 256 + b2) * 256 + b3, rest)
  | _ => .error .unexpectedEnd

def readU64 : List Nat → Except Err (Nat × List Nat)
  | b0 :: b1 :: b2 :: b3 :: b4 :: b5 :: b6 :: b7 :: rest =>
    .ok (((((((b0 * 256 + b1) * 256 + b2) * 256 + b3) * 256 + b4) * 256 + b5)
        * 256 + b6) * 256 + b7, rest)
  | _ => .error .unexpectedEnd

/-- Two's-complement reinterpretation of an unsigned value of `2^bits`. -/
def toSigned (bits : Nat) (n : Nat) : Int :=
  if n < 2 ^ (bits - 1) then (n : Int) else (n : Int) - 2 ^ bits

def readI8 : List Nat → Except Err (Int × List Nat)
  | b0 :: rest => .ok (toSigned 8 b0, rest)
  | _ => .error .unexpectedEnd

def readI16 (b : List Nat) : Except Err (Int × List Nat) :=
  (readU16 b).map fun p => (toSigned 16 p.1, p.2)

def readI32 (b : List Nat) : Except Err (Int × List Nat) :=
  (readU32 b).map fun p => (toSigned 32 p.1, p.2)

def readI64 (b : List Nat) : Except Err (Int × List Nat) :=
  (readU64 b).map fun p => (toSigned 64 p.1, p.2)

/-- `write_u8` after an `as u8` cast: one byte, truncated to 8 bits. -/
def u8Bytes (n : Nat) : List Nat := [n % 256]

/-- `write_u16::<BigEndian>` after an `as u16` cast. -/
def u16Bytes (n : Nat) : List Nat := [n / 2 ^ 8 % 256, n % 256]

/-- `write_u32::<BigEndian>` after an `as u32` cast. -/
def u32Bytes (n : Nat) : List Nat :=
  [n / 2 ^ 24 % 256, n / 2 ^ 16 % 256, n / 2 ^ 8 % 256, n % 256]

/-- `write_u64::<BigEndian>`. -/
def u64Bytes (n : Nat) : List Nat :=
  [n / 2 ^ 56 % 256, n / 2 ^ 48 % 256, n / 2 ^ 40 % 256, n / 2 ^ 32 % 256,
   n / 2 ^ 24 % 256, n / 2 ^ 16 % 256, n / 2 ^ 8 % 256, n % 256]

/-- `write_i8`: the two's-complement byte of a signed value. -/
def i8Bytes (x : Int) : List Nat := u8Bytes (x % 2 ^ 8).toNat

/-- `write_i16::<BigEndian>`. -/
def i16Bytes (x : Int) : List Nat := u16Bytes (x % 2 ^ 16).toNat

/-- `write_i32::<BigEndian>`. -/
def i32Bytes (x : Int) : List Nat := u32Bytes (x % 2 ^ 32).toNat

/-- `write_i64::<BigEndian>`. -/
def i64Bytes (x : Int) : List Nat := u64Bytes (x % 2 ^ 64).toNat

/-! ### UTF-8

Rust strings are UTF-8 byte sequences.  `utf8EncodeChar` is the standard
scalar-value encoding used by `str::as_bytes`; `utf8Decode` is the strict
validation performed by `String::from_utf8` (continuation ranges, no
surrogates, no overlong forms, max `0x10ffff`), returning the decoded code
points. -/

def utf8EncodeChar (c : Nat) : List Nat :=
  if c < 0x80 then [c]
  else if c < 0x800 then [0xc0 + c / 64, 0x80 + c % 64]
  else if c < 0x10000 then
    [0xe0 + c / 4096, 0x80 + c / 64 % 64, 0x80 + c % 64]
  else
    [0xf0 + c / 262144, 0x80 + c / 4096 % 64, 0x80 + c / 64 % 64,
     0x80 + c % 64]

/-- The UTF-8 bytes of a string (`str::as_bytes` / `String::len` counts
these bytes, not the characters). -/
def utf8Encode (s : String) : List Nat :=
  (s.data.map fun c => utf8EncodeChar c.toNat).flatten

/-- A continuation byte `0x80..=0xbf`. -/
def isCont (c : Nat) : Bool := 0x80 ≤ c && c ≤ 0xbf

/-- Allowed first-continuation range after a three-byte leader (rules out
overlong forms after `0xe0` and surrogates after `0xed`). -/
def cont3Ok (b c : Nat) : Bool :=
  if b = 0xe0 then 0xa0 ≤ c && c ≤ 0xbf
  else if b = 0xed then 0x80 ≤ c && c ≤ 0x9f
  else isCont c

/-- Allowed first-continuation range after a four-byte leader (rules out
overlong forms after `0xf0` and values beyond `0x10ffff` after `0xf4`). -/
def cont4Ok (b c : Nat) : Bool :=
  if b = 0xf0 then 0x90 ≤ c && c ≤ 0xbf
  else if b = 0xf4 then 0x80 ≤ c && c ≤ 0x8f
  else isCont c

mutual

/-- Strict UTF-8 validation and decoding to code points
(`String::from_utf8` succeeds exactly when this returns `some`): one
decoder per leader-byte class. -/
def utf8Decode : List Nat → Option (List Nat)
  | [] => some []
  | b :: rest =>
    if b < 0x80 then (utf8Decode rest).map (b :: ·)
    else if 0xc2 ≤ b && b ≤ 0xdf then utf8DecodeTwo b rest
    else if 0xe0 ≤ b && b ≤ 0xef then utf8DecodeThree b rest
    else if 0xf0 ≤ b && b ≤ 0xf4 then utf8DecodeFour b rest
    else none
termination_by l => (l.length, 0)

/-- A two-byte sequence: leader `0xc2..=0xdf`, one continuation byte. -/
def utf8DecodeTwo (b : Nat) : List Nat → Option (List Nat)
  | c1 :: r =>
    if isCont c1 then
      (utf8Decode r).map (((b - 0xc0) * 64 + (c1 - 0x80)) :: ·)
    else none
  | [] => none
termination_by l => (l.length, 1)

/-- A three-byte sequence: leader `0xe0..=0xef`, two continuation bytes,
with the `0xe0`/`0xed` first-continuation restrictions. -/
def utf8DecodeThree (b : Nat) : List Nat → Option (List Nat)
  | c1 :: c2 :: r =>
    if cont3Ok b c1 && isCont c2 then
      (utf8Decode r).map
        (((b - 0xe0) * 4096 + (c1 - 0x80) * 64 + (c2 - 0x80)) :: ·)
    else none
  | _ => none
termination_by l => (l.length, 1)

/-- A four-byte sequence: leader `0xf0..=0xf4`, three continuation bytes,
with the `0xf0`/`0xf4` first-continuation restrictions. -/
def utf8DecodeFour (b : Nat) : List Nat → Option (List Nat)
  | c1 :: c2 :: c3 :: r =>
    if cont4Ok b c1 && isCont c2 && isCont c3 then
      (utf8Decode r).map
        (((b - 0xf0) * 262144 + (c1 - 0x80) * 4096 + (c2 - 0x80) * 64
          + (c3 - 0x80)) :: ·)
    else none
  | _ => none
termination_by l => (l.length, 1)

end

/-- Whether `String::from_utf8` accepts the bytes. -/
def utf8Valid (bs : List Nat) : Bool := (utf8Decode bs).isSome

/-! ### Encoder driver (`ser/ser.rs`, `ser/array.rs`, `ser/map.rs`,
`ser/_struct.rs`; the same branch logic appears in `write_encoder.rs`) -/

/-- `Serializer::serialize_bool`. -/
def serialize_bool (v : Bool) : List Nat :=
  Format.set_format (if v then .FmtTrue else .FmtFalse)

/-- `Serializer::serialize_u64` (also `WriteEncoder::write_u64`):
shortest-form unsigned encoding. -/
def serialize_u64 (v : Nat) : List Nat :=
  if v < 2 ^ 7 then Format.set_format (.PositiveFixInt v)
  else if v ≤ 0xff then Format.set_format .Uint8 ++ u8Bytes v
  else if v ≤ 0xffff then Format.set_format .Uint16 ++ u16Bytes v
  else if v ≤ 0xffffffff then Format.set_format .Uint32 ++ u32Bytes v
  else Format.set_format .Uint64 ++ u64Bytes v

/-- `Serializer::serialize_i64` (also `WriteEncoder::write_i64`):
shortest-form signed encoding. -/
def serialize_i64 (v : Int) : List Nat :=
  if 0 ≤ v then serialize_u64 v.toNat
  else if -32 ≤ v ∧ v < 0 then Format.set_format (.NegativeFixInt v)
  else if -128 ≤ v ∧ v ≤ 127 then Format.set_format .Int8 ++ i8Bytes v
  else if -(2 ^ 15) ≤ v ∧ v ≤ 2 ^ 15 - 1 then
    Format.set_format .Int16 ++ i16Bytes v
  else if -(2 ^ 31) ≤ v ∧ v ≤ 2 ^ 31 - 1 then
    Format.set_format .Int32 ++ i32Bytes v
  else Format.set_format .Int64 ++ i64Bytes v

/-- `WriteEncoder::write_string_length`: same branches as the inline logic
of `Serializer::serialize_str`. -/
def write_string_length (length : Nat) : List Nat :=
  if length < 32 then Format.set_format (.FixStr length)
  else if length ≤ 0xff then Format.set_format .Str8 ++ u8Bytes length
  else if length ≤ 0xffff then Format.set_format .Str16 ++ u16Bytes length
  else Format.set_format .Str32 ++ u32Bytes length

/-- `Serializer::serialize_str`: `let length = v.len() as u32` is the UTF-8
byte length truncated to 32 bits, then the length-chosen tag followed by the
raw UTF-8 bytes. -/
def serialize_str (s : String) : List Nat :=
  let bs := utf8Encode s
  let length := bs.length % 2 ^ 32
  (if length < 32 then Format.set_format (.FixStr length)
   else if length ≤ 0xff then Format.set_format .Str8 ++ u8Bytes length
   else if length ≤ 0xffff then Format.set_format .Str16 ++ u16Bytes length
   else Format.set_format .Str32 ++ u32Bytes length) ++ bs

/-- The string encoding at the byte level (used for field names and string
values already held as UTF-8 bytes). -/
def encode_str_bytes (bs : List Nat) : List Nat :=
  write_string_length (bs.length % 2 ^ 32) ++ bs

/-- `WriteEncoder::write_bytes_length`. -/
def write_bytes_length (length : Nat) : List Nat :=
  if length ≤ 0xff then Format.set_format .Bin8 ++ u8Bytes length
  else if length ≤ 0xffff then Format.set_format .Bin16 ++ u16Bytes length
  else Format.set_format .Bin32 ++ u32Bytes length

/-- `Serializer::serialize_bytes`: an empty blob serializes as `Nil`. -/
def serialize_bytes (bs : List Nat) : List Nat :=
  if bs.isEmpty then Format.set_format .Nil
  else write_bytes_length (bs.length % 2 ^ 32) ++ bs

/-- `ArraySerializer::write_array_length`. -/
def write_array_length (length : Nat) : List Nat :=
  if length < 16 then Format.set_format (.FixArray length)
  else if length ≤ 0xffff then Format.set_format .Array16 ++ u16Bytes length
  else Format.set_format .Array32 ++ u32Bytes length

/-- `MapSerializer::write_map_length` (also used by
`StructSerializer::end`). -/
def write_map_length (length : Nat) : List Nat :=
  if length < 16 then Format.set_format (.FixMap length)
  else if length ≤ 0xffff then Format.set_format .Map16 ++ u16Bytes length
  else Format.set_format .Map32 ++ u32Bytes length

/-- `MapSerializer::write_ext_map_len`: extension-length header chosen by
the byte length of the inner body. -/
def write_ext_map_len (length : Nat) : List Nat :=
  if length ≤ 0xff then Format.set_format .Ext8 ++ u8Bytes length
  else if length ≤ 0xffff then Format.set_format .Ext16 ++ u16Bytes length
  else Format.set_format .Ext32 ++ u32Bytes length

/-- `MapSerializer::write_ext_map_type`: the extension-type byte. -/
def write_ext_map_type : List Nat := [ExtensionType.toU8 .GenericMap]

/-- `StructSerializer::end`, given the declared fields with their
already-encoded value bytes: a bare map-length header followed by the
buffered (serialized-field-name, value-bytes) pairs.  No extension
envelope. -/
def struct_serializer_end (fields : List (String × List Nat)) : List Nat :=
  write_map_length fields.length
    ++ (fields.map fun f => serialize_str f.1 ++ f.2).flatten

/-- `MapSerializer::end`, given the entries with their already-encoded key
and value bytes: the inner body (map-length header plus buffered pairs) is
wrapped in an extension header and the `GenericMap` type byte. -/
def map_serializer_end (entries : List (List Nat × List Nat)) : List Nat :=
  let map_buffer := write_map_length entries.length
    ++ (entries.map fun e => e.1 ++ e.2).flatten
  write_ext_map_len map_buffer.length ++ write_ext_map_type ++ map_buffer

/-! ### Decoder driver helpers (`de/mod.rs`) -/

/-- `Deserializer::peek_format`: classify the next byte, restoring the
cursor position. -/
def peek_format (b : List Nat) : Except Err Format :=
  (Format.get_format b).map Prod.fst

/-- `Deserializer::get_bytes` via `Read::take(n).read_to_end`: consumes up
to `n` bytes, without failing when fewer remain. -/
def get_bytes (n : Nat) (b : List Nat) : List Nat × List Nat :=
  (b.take n, b.drop n)

/-- `Deserializer::read_ext_length_and_type` (de/mod.rs lines 61-84). -/
def read_ext_length_and_type (b : List Nat) :
    Except Err ((Nat × ExtensionType) × List Nat) := do
  let (f, b1) ← Format.get_format b
  let (byte_length, b2) ←
    match f with
    | .FixExt1 => Except.ok (1, b1)
    | .FixExt2 => Except.ok (2, b1)
    | .FixExt4 => Except.ok (4, b1)
    | .FixExt8 => Except.ok (8, b1)
    | .FixExt16 => Except.ok (16, b1)
    | .Ext8 => readU8 b1
    | .Ext16 => readU16 b1
    | .Ext32 => readU32 b1
    | _ => Except.error .expectedExt
  let (ext_byte, b3) ← readU8 b2
  let ext_type ← ExtensionType.ofU8 ext_byte
  .ok ((byte_length, ext_type), b3)

/-- `Deserializer::read_array_length`: a peeked `Nil` yields length 0
without consuming; otherwise the array-length tags. -/
def read_array_length (b : List Nat) : Except Err (Nat × List Nat) := do
  let next_format ← peek_format b
  match next_format with
  | .Nil => .ok (0, b)
  | _ => do
    let (f, b1) ← Format.get_format b
    match f with
    | .FixArray len => .ok (len, b1)
    | .Array16 => readU16 b1
    | .Array32 => readU32 b1
    | .Nil => .ok (0, b1)
    | _ => .error .expectedArray

/-- `Deserializer::read_string_length`: `FixArray` is accepted as a string
length for historical compatibility; a peeked `Nil` yields 0 without
consuming. -/
def read_string_length (b : List Nat) : Except Err (Nat × List Nat) := do
  let next_format ← peek_format b
  match next_format with
  | .Nil => .ok (0, b)
  | _ => do
    let (f, b1) ← Format.get_format b
    match f with
    | .FixStr len => .ok (len, b1)
    | .FixArray len => .ok (len, b1)
    | .Str8 => readU8 b1
    | .Str16 => readU16 b1
    | .Str32 => readU32 b1
    | .Nil => .ok (0, b1)
    | _ => .error .expectedString

/-- `Deserializer::read_map_length`. -/
def read_map_length (b : List Nat) : Except Err (Nat × List Nat) := do
  let next_format ← peek_format b
  match next_format with
  | .Nil => .ok (0, b)
  | _ => do
    let (f, b1) ← Format.get_format b
    match f with
    | .FixMap len => .ok (len, b1)
    | .Map16 => readU16 b1
    | .Map32 => readU32 b1
    | .Nil => .ok (0, b1)
    | _ => .error .expectedMap

/-- `Deserializer::read_bytes_length`. -/
def read_bytes_length (b : List Nat) : Except Err (Nat × List Nat) := do
  let next_format ← peek_format b
  match next_format with
  | .Nil => .ok (0, b)
  | _ => do
    let (f, b1) ← Format.get_format b
    match f with
    | .FixArray len => .ok (len, b1)
    | .Bin8 => readU8 b1
    | .Bin16 => readU16 b1
    | .Bin32 => readU32 b1
    | .Nil => .ok (0, b1)
    | _ => .error .expectedBytes

/-- `Deserializer::parse_string`: length, then raw bytes, then UTF-8
validation (`String::from_utf8` failure is a `Message` error). -/
def parse_string (b : List Nat) : Except Err (List Nat × List Nat) := do
  let (str_len, b1) ← read_string_length b
  let (bytes, rest) := get_bytes str_len b1
  if utf8Valid bytes then .ok (bytes, rest) else .error .message

/-- `Deserializer::parse_unsigned` (de/mod.rs lines 203-287). -/
def parse_unsigned (b : List Nat) : Except Err (Nat × List Nat) := do
  let (f, b1) ← Format.get_format b
  let p := f.to_u8
  if Format.is_positive_fixed_int p then .ok (p, b1)
  else if Format.is_negative_fixed_int p then .error .expectedUInteger
  else
    match f with
    | .Uint8 => readU8 b1
    | .Uint16 => readU16 b1
    | .Uint32 => readU32 b1
    | .Uint64 => readU64 b1
    | .Int8 => do
      let (x, b2) ← readI8 b1
      if 0 ≤ x then .ok (x.toNat, b2) else .error .expectedUInteger
    | .Int16 => do
      let (x, b2) ← readI16 b1
      if 0 ≤ x then .ok (x.toNat, b2) else .error .expectedUInteger
    | .Int32 => do
      let (x, b2) ← readI32 b1
      if 0 ≤ x then .ok (x.toNat, b2) else .error .expectedUInteger
    | .Int64 => do
      let (x, b2) ← readI64 b1
      if 0 ≤ x then .ok (x.toNat, b2) else .error .expectedUInteger
    | _ => .error .expectedUInteger

/-- `Deserializer::parse_signed` (de/mod.rs lines 289-335). -/
def parse_signed (b : List Nat) : Except Err (Int × List Nat) := do
  let (f, b1) ← Format.get_format b
  let p := f.to_u8
  if Format.is_positive_fixed_int p then .ok ((p : Int), b1)
  else if Format.is_negative_fixed_int p then .ok (toSigned 8 p, b1)
  else
    match f with
    | .Int8 => readI8 b1
    | .Int16 => readI16 b1
    | .Int32 => readI32 b1
    | .Int64 => readI64 b1
    | .Uint8 => (readU8 b1).map fun q => ((q.1 : Int), q.2)
    | .Uint16 => (readU16 b1).map fun q => ((q.1 : Int), q.2)
    | .Uint32 => (readU32 b1).map fun q => ((q.1 : Int), q.2)
    | .Uint64 => do
      let (v, b2) ← readU64 b1
      if v ≤ 2 ^ 63 - 1 then .ok ((v : Int), b2) else .error .message
    | _ => .error .expectedInteger

/-- `Deserializer::deserialize_char` (de/mod.rs lines 539-554): parses a
string and accepts it only when `str.len()` — the UTF-8 *byte* length — is
exactly 1; the yielded char is `str.chars().last().unwrap()`.  The
impossible-`none` arm models the unreachable `unwrap`. -/
def deserialize_char (b : List Nat) : Except Err (Nat × List Nat) := do
  let (bytes, rest) ← parse_string b
  if bytes.length = 1 then
    match ((utf8Decode bytes).getD []).getLast? with
    | some c => .ok (c, rest)
    | none => .error .expectedChar
  else .error .expectedChar

/-! ### The data model

`Value` is the tree of in-memory values the driver moves (§3): strings are
owned UTF-8 byte sequences, `vnull` is the common image of `None` and the
unit value, `vstrct` is a field-addressed record (bare map on the wire) and
`vmap` a generic key/value map (extension envelope on the wire).

`Shape` is the target shape the adapter-driven visitor declares to the
decoder (§3: the hint that chooses the structure-vs-map interpretation and
the integer widths). -/

inductive Value
  | vbool (b : Bool)
  | vu (n : Nat)
  | vi (n : Int)
  | vstr (bs : List Nat)
  | vbin (bs : List Nat)
  | vnull
  | varr (xs : List Value)
  | vmap (kvs : List (Value × Value))
  | vstrct (fs : List (List Nat × Value))
deriving Repr

inductive Shape
  | bool | u8 | u16 | u32 | u64 | i8 | i16 | i32 | i64
  | str | bin | unit
  | option (sh : Shape)
  | arr (sh : Shape)
  | map (ksh vsh : Shape)
  | strct (fields : List (List Nat × Shape))
deriving Repr

/-! ### Encoding a value (`to_vec`: `value.serialize(&mut serializer)` and
the aggregate serializers' `end`) -/

mutual

/-- The bytes `Serializer` emits for one value. -/
def encodeValue : Value → List Nat
  | .vbool b => serialize_bool b
  | .vu n => serialize_u64 n
  | .vi n => serialize_i64 n
  | .vstr bs => encode_str_bytes bs
  | .vbin bs => serialize_bytes bs
  | .vnull => Format.set_format .Nil
  | .varr xs => write_array_length xs.length ++ encodeList xs
  | .vmap kvs =>
    let map_buffer := write_map_length kvs.length ++ encodePairs kvs
    write_ext_map_len map_buffer.length ++ write_ext_map_type ++ map_buffer
  | .vstrct fs => write_map_length fs.length ++ encodeFields fs

/-- `ArraySerializer`: element bodies in order. -/
def encodeList : List Value → List Nat
  | [] => []
  | x :: xs => encodeValue x ++ encodeList xs

/-- `MapSerializer`: interleaved key/value bodies in order. -/
def encodePairs : List (Value × Value) → List Nat
  | [] => []
  | (k, v) :: kvs => encodeValue k ++ encodeValue v ++ encodePairs kvs

/-- `StructSerializer`: interleaved (field-name, value) bodies in order. -/
def encodeFields : List (List Nat × Value) → List Nat
  | [] => []
  | (nm, v) :: fs => encode_str_bytes nm ++ encodeValue v ++ encodeFields fs

end

/-! ### Decoding a value of a declared shape (`T::deserialize` dispatching
into the `deserialize_*` methods of `de/mod.rs`) -/

mutual

/-- One `deserialize_*` call for the declared shape.  The integer widths
perform the overflow range checks of `deserialize_u8/…/i32`; `.map` is
`deserialize_map` with its extension-envelope check; `.strct` is
`deserialize_struct` (the derived visitor side — reading each declared
field's name and value in order — is modelled from the spec, §4.4, as the
adapter layer is an external collaborator). -/
def decodeValue : (sh : Shape) → List Nat → Except Err (Value × List Nat)
  | .bool, b => do
    let (f, b1) ← Format.get_format b
    match f with
    | .FmtTrue => .ok (.vbool true, b1)
    | .FmtFalse => .ok (.vbool false, b1)
    | _ => .error .expectedBoolean
  | .u8, b => do
    let (v, b1) ← parse_unsigned b
    if v ≤ 0xff then .ok (.vu v, b1) else .error .message
  | .u16, b => do
    let (v, b1) ← parse_unsigned b
    if v ≤ 0xffff then .ok (.vu v, b1) else .error .message
  | .u32, b => do
    let (v, b1) ← parse_unsigned b
    if v ≤ 0xffffffff then .ok (.vu v, b1) else .error .message
  | .u64, b => do
    let (v, b1) ← parse_unsigned b
    .ok (.vu v, b1)
  | .i8, b => do
    let (v, b1) ← parse_signed b
    if v ≤ 127 ∧ -128 ≤ v then .ok (.vi v, b1) else .error .message
  | .i16, b => do
    let (v, b1) ← parse_signed b
    if v ≤ 2 ^ 15 - 1 ∧ -(2 ^ 15) ≤ v then .ok (.vi v, b1)
    else .error .message
  | .i32, b => do
    let (v, b1) ← parse_signed b
    if v ≤ 2 ^ 31 - 1 ∧ -(2 ^ 31) ≤ v then .ok (.vi v, b1)
    else .error .message
  | .i64, b => do
    let (v, b1) ← parse_signed b
    .ok (.vi v, b1)
  | .str, b => do
    let (bytes, b1) ← parse_string b
    .ok (.vstr bytes, b1)
  | .bin, b => do
    let (bytes_len, b1) ← read_bytes_length b
    let (bytes, rest) := get_bytes bytes_len b1
    .ok (.vbin bytes, rest)
  | .unit, b => do
    let (f, b1) ← Format.get_format b
    match f with
    | .Nil => .ok (.vnull, b1)
    | _ => .error .expectedNull
  | .option sh, b => do
    let next_format ← peek_format b
    match next_format with
    | .Nil => do
      let (_, b1) ← Format.get_format b
      .ok (.vnull, b1)
    | _ => decodeValue sh b
  | .arr sh, b => do
    let (arr_len, b1) ← read_array_length b
    let (xs, b2) ← decodeElems sh arr_len b1
    .ok (.varr xs, b2)
  | .map ksh vsh, b => do
    let ((_, ext_type), b1) ← read_ext_length_and_type b
    if ext_type = ExtensionType.GenericMap then
      .error .expectedExt
    else do
      let (map_len, b2) ← read_map_length b1
      let (kvs, b3) ← decodePairsD ksh vsh map_len b2
      .ok (.vmap kvs, b3)
  | .strct fields, b => do
    let (map_len, b1) ← read_map_length b
    if map_len = fields.length then do
      let (fs, b2) ← decodeFieldsD fields b1
      .ok (.vstrct fs, b2)
    else .error .message
termination_by sh _ => (sizeOf sh, 0)

/-- `ArrayReadAccess`: `n` elements of the same shape, counting down. -/
def decodeElems : (sh : Shape) → Nat → List Nat →
    Except Err (List Value × List Nat)
  | _, 0, b => .ok ([], b)
  | sh, n + 1, b => do
    let (x, b1) ← decodeValue sh b
    let (xs, b2) ← decodeElems sh n b1
    .ok (x :: xs, b2)
termination_by sh n _ => (sizeOf sh, n + 1)

/-- `MapReadAccess` for generic maps: `n` key/value pairs, counting down
(dead code under the `deserialize_map` extension-type check, kept as in the
source). -/
def decodePairsD : (ksh vsh : Shape) → Nat → List Nat →
    Except Err (List (Value × Value) × List Nat)
  | _, _, 0, b => .ok ([], b)
  | ksh, vsh, n + 1, b => do
    let (k, b1) ← decodeValue ksh b
    let (v, b2) ← decodeValue vsh b1
    let (kvs, b3) ← decodePairsD ksh vsh n b2
    .ok ((k, v) :: kvs, b3)
termination_by ksh vsh n _ => (sizeOf ksh + sizeOf vsh, n + 1)
decreasing_by
all_goals
  first
  | decreasing_tactic
  | (simp_wf
     apply Prod.Lex.left
     have hv : 0 < sizeOf vsh := by cases vsh <;> simp
     have hk : 0 < sizeOf ksh := by cases ksh <;> simp
     omega)

/-- `MapReadAccess` driving a derived struct visitor: each declared field's
name is decoded as a string and must match, then its value with the
declared shape (visitor side modelled from the spec §4.4; a mismatched
field name is an adapter-level `Message` error). -/
def decodeFieldsD : (fields : List (List Nat × Shape)) → List Nat →
    Except Err (List (List Nat × Value) × List Nat)
  | [], b => .ok ([], b)
  | (nm, sh) :: fs, b => do
    let (key, b1) ← parse_string b
    if key = nm then do
      let (v, b2) ← decodeValue sh b1
      let (rest, b3) ← decodeFieldsD fs b2
      .ok ((nm, v) :: rest, b3)
    else .error .message
termination_by fields _ => (sizeOf fields, 0)

end

/-! ### Decoder-accepted values

`Good sh v` singles out the values of shape `sh` whose encoding the decoder
accepts back in full: integers within the declared width, strings that are
valid UTF-8 with a length expressible in the 32-bit length headers, byte
blobs that are non-empty (an empty blob encodes as `Nil`, which
`read_bytes_length` peeks without consuming, so its decode leaves the `Nil`
byte in the buffer), and no generic maps (`deserialize_map` rejects every
extension envelope, see the `deserialize_map` bug covered by the claims). -/

mutual

def Good : Shape → Value → Bool
  | .bool, .vbool _ => true
  | .u8, .vu n => decide (n ≤ 0xff)
  | .u16, .vu n => decide (n ≤ 0xffff)
  | .u32, .vu n => decide (n ≤ 0xffffffff)
  | .u64, .vu n => decide (n < 2 ^ 64)
  | .i8, .vi x => decide (-128 ≤ x ∧ x ≤ 127)
  | .i16, .vi x => decide (-(2 ^ 15) ≤ x ∧ x ≤ 2 ^ 15 - 1)
  | .i32, .vi x => decide (-(2 ^ 31) ≤ x ∧ x ≤ 2 ^ 31 - 1)
  | .i64, .vi x => decide (-(2 ^ 63) ≤ x ∧ x ≤ 2 ^ 63 - 1)
  | .str, .vstr bs => utf8Valid bs && decide (bs.length < 2 ^ 32)
  | .bin, .vbin bs => !bs.isEmpty && decide (bs.length < 2 ^ 32)
  | .unit, .vnull => true
  | .option _, .vnull => true
  | .option sh, v => Good sh v
  | .arr sh, .varr xs => decide (xs.length < 2 ^ 32) && GoodList sh xs
  | .strct fields, .vstrct fs =>
    decide (fields.length < 2 ^ 32) && GoodFields fields fs
  | _, _ => false

def GoodList : Shape → List Value → Bool
  | _, [] => true
  | sh, x :: xs => Good sh x && GoodList sh xs

def GoodFields : List (List Nat × Shape) → List (List Nat × Value) → Bool
  | [], [] => true
  | (nm, sh) :: fsh, (nm2, v) :: fv =>
    decide (nm2 = nm) && utf8Valid nm && decide (nm.length < 2 ^ 32)
      && Good sh v && GoodFields fsh fv
  | _, _ => false

end

/-- `from_slice` (de/mod.rs lines 37-50): decode a root value, then require
the cursor position to equal the buffer length (the remaining suffix to be
empty); otherwise fail with `TrailingCharacters`. -/
def from_slice (sh : Shape) (b : List Nat) : Except Err Value :=
  match decodeValue sh b with
  | .ok (t, rest) =>
    if rest.isEmpty then .ok t else .error .trailingCharacters
  | .error e => .error e

/-! ## Supporting lemmas -/

theorem readU8_u8Bytes (n : Nat) (s : List Nat) (h : n < 2 ^ 8) :
    readU8 (u8Bytes n ++ s) = .ok (n, s) := by
  simp [readU8, u8Bytes]
  omega

theorem readU16_u16Bytes (n : Nat) (s : List Nat) (h : n < 2 ^ 16) :
    readU16 (u16Bytes n ++ s) = .ok (n, s) := by
  simp [readU16, u16Bytes]
  omega

theorem readU32_u32Bytes (n : Nat) (s : List Nat) (h : n < 2 ^ 32) :
    readU32 (u32Bytes n ++ s) = .ok (n, s) := by
  simp [readU32, u32Bytes]
  omega

theorem readU64_u64Bytes (n : Nat) (s : List Nat) (h : n < 2 ^ 64) :
    readU64 (u64Bytes n ++ s) = .ok (n, s) := by
  simp [readU64, u64Bytes]
  omega

theorem readI8_i8Bytes (x : Int) (s : List Nat) (h1 : -(2 ^ 7) ≤ x)
    (h2 : x < 2 ^ 7) : readI8 (i8Bytes x ++ s) = .ok (x, s) := by
  have hm : (x % 2 ^ 8).toNat % 256 = (x % 2 ^ 8).toNat := by omega
  simp only [readI8, i8Bytes, u8Bytes, List.cons_append, List.nil_append,
    toSigned, hm]
  split <;>
    (simp only [Except.ok.injEq, Prod.mk.injEq, eq_self_iff_true, and_true,
      true_and]
     omega)

theorem readI16_i16Bytes (x : Int) (s : List Nat) (h1 : -(2 ^ 15) ≤ x)
    (h2 : x < 2 ^ 15) : readI16 (i16Bytes x ++ s) = .ok (x, s) := by
  have h : ((x % 2 ^ 16).toNat) < 2 ^ 16 := by omega
  rw [i16Bytes, readI16, readU16_u16Bytes _ _ h]
  simp only [Except.map, toSigned]
  split <;>
    (simp only [Except.ok.injEq, Prod.mk.injEq, eq_self_iff_true, and_true,
      true_and]
     omega)

theorem readI32_i32Bytes (x : Int) (s : List Nat) (h1 : -(2 ^ 31) ≤ x)
    (h2 : x < 2 ^ 31) : readI32 (i32Bytes x ++ s) = .ok (x, s) := by
  have h : ((x % 2 ^ 32).toNat) < 2 ^ 32 := by omega
  rw [i32Bytes, readI32, readU32_u32Bytes _ _ h]
  simp only [Except.map, toSigned]
  split <;>
    (simp only [Except.ok.injEq, Prod.mk.injEq, eq_self_iff_true, and_true,
      true_and]
     omega)

theorem readI64_i64Bytes (x : Int) (s : List Nat) (h1 : -(2 ^ 63) ≤ x)
    (h2 : x < 2 ^ 63) : readI64 (i64Bytes x ++ s) = .ok (x, s) := by
  have h : ((x % 2 ^ 64).toNat) < 2 ^ 64 := by omega
  rw [i64Bytes, readI64, readU64_u64Bytes _ _ h]
  simp only [Except.map, toSigned]
  split <;>
    (simp only [Except.ok.injEq, Prod.mk.injEq, eq_self_iff_true, and_true,
      true_and]
     omega)

theorem ofByte_posfix : ∀ b, b < 0x80 → Format.ofByte b = .PositiveFixInt b := by
  decide

set_option maxRecDepth 4000 in
theorem ofByte_negfix : ∀ b, 0xe0 ≤ b → b ≤ 0xff →
    Format.ofByte b = .NegativeFixInt ((b : Int) - 256) := by
  have h : ∀ b, b < 0x100 →
      (0xe0 ≤ b → Format.ofByte b = .NegativeFixInt ((b : Int) - 256)) := by
    decide
  intro b h1 h2
  exact h b (by omega) h1

set_option maxRecDepth 4000 in
theorem ofByte_fixmap : ∀ b, 0x80 ≤ b → b ≤ 0x8f →
    Format.ofByte b = .FixMap (b % 16) := by
  have h : ∀ b, b < 0x90 →
      (0x80 ≤ b → Format.ofByte b = .FixMap (b % 16)) := by decide
  intro b h1 h2
  exact h b (by omega) h1

set_option maxRecDepth 4000 in
theorem ofByte_fixarray : ∀ b, 0x90 ≤ b → b ≤ 0x9f →
    Format.ofByte b = .FixArray (b % 16) := by
  have h : ∀ b, b < 0xa0 →
      (0x90 ≤ b → Format.ofByte b = .FixArray (b % 16)) := by decide
  intro b h1 h2
  exact h b (by omega) h1

set_option maxRecDepth 4000 in
theorem ofByte_fixstr : ∀ b, 0xa0 ≤ b → b ≤ 0xbf →
    Format.ofByte b = .FixStr (b % 32) := by
  have h : ∀ b, b < 0xc0 →
      (0xa0 ≤ b → Format.ofByte b = .FixStr (b % 32)) := by decide
  intro b h1 h2
  exact h b (by omega) h1

theorem parse_unsigned_posfix (b : Nat) (t : List Nat) (h : b < 0x80) :
    parse_unsigned (b :: t) = .ok (b, t) := by
  have hm : b % 128 = b := Nat.mod_eq_of_lt h
  simp [parse_unsigned, Format.get_format, ofByte_posfix b h, Format.to_u8,
    hm, Format.is_positive_fixed_int, h, Bind.bind, Except.bind]

theorem parse_unsigned_negfix (b : Nat) (t : List Nat) (h1 : 0xe0 ≤ b)
    (h2 : b ≤ 0xff) : parse_unsigned (b :: t) = .error .expectedUInteger := by
  have hm : (((b : Int) - 256) % 256).toNat = b := by omega
  simp only [parse_unsigned, Format.get_format, ofByte_negfix b h1 h2,
    Bind.bind, Except.bind, Format.to_u8, hm]
  rw [if_neg (by simp only [Format.is_positive_fixed_int,
        decide_eq_true_eq]; omega),
      if_pos (by simp only [Format.is_negative_fixed_int, Bool.and_eq_true,
        decide_eq_true_eq]; omega)]

theorem parse_unsigned_uint8 (t : List Nat) :
    parse_unsigned (0xcc :: t) = readU8 t := by
  simp [parse_unsigned, Format.get_format, Format.ofByte, Format.to_u8,
    Format.is_positive_fixed_int, Format.is_negative_fixed_int,
    Bind.bind, Except.bind]

theorem parse_unsigned_uint16 (t : List Nat) :
    parse_unsigned (0xcd :: t) = readU16 t := by
  simp [parse_unsigned, Format.get_format, Format.ofByte, Format.to_u8,
    Format.is_positive_fixed_int, Format.is_negative_fixed_int,
    Bind.bind, Except.bind]

theorem parse_unsigned_uint32 (t : List Nat) :
    parse_unsigned (0xce :: t) = readU32 t := by
  simp [parse_unsigned, Format.get_format, Format.ofByte, Format.to_u8,
    Format.is_positive_fixed_int, Format.is_negative_fixed_int,
    Bind.bind, Except.bind]

theorem parse_unsigned_uint64 (t : List Nat) :
    parse_unsigned (0xcf :: t) = readU64 t := by
  simp [parse_unsigned, Format.get_format, Format.ofByte, Format.to_u8,
    Format.is_positive_fixed_int, Format.is_negative_fixed_int,
    Bind.bind, Except.bind]

theorem parse_unsigned_int8_ok (t u : List Nat) (x : Int)
    (hr : readI8 t = .ok (x, u)) :
    parse_unsigned (0xd0 :: t) =
      if 0 ≤ x then .ok (x.toNat, u) else .error .expectedUInteger := by
  simp [parse_unsigned, Format.get_format, Format.ofByte, Format.to_u8,
    Format.is_positive_fixed_int, Format.is_negative_fixed_int, hr,
    Bind.bind, Except.bind]

theorem parse_unsigned_int16_ok (t u : List Nat) (x : Int)
    (hr : readI16 t = .ok (x, u)) :
    parse_unsigned (0xd1 :: t) =
      if 0 ≤ x then .ok (x.toNat, u) else .error .expectedUInteger := by
  simp [parse_unsigned, Format.get_format, Format.ofByte, Format.to_u8,
    Format.is_positive_fixed_int, Format.is_negative_fixed_int, hr,
    Bind.bind, Except.bind]

theorem parse_unsigned_int32_ok (t u : List Nat) (x : Int)
    (hr : readI32 t = .ok (x, u)) :
    parse_unsigned (0xd2 :: t) =
      if 0 ≤ x then .ok (x.toNat, u) else .error .expectedUInteger := by
  simp [parse_unsigned, Format.get_format, Format.ofByte, Format.to_u8,
    Format.is_positive_fixed_int, Format.is_negative_fixed_int, hr,
    Bind.bind, Except.bind]

theorem parse_unsigned_int64_ok (t u : List Nat) (x : Int)
    (hr : readI64 t = .ok (x, u)) :
    parse_unsigned (0xd3 :: t) =
      if 0 ≤ x then .ok (x.toNat, u) else .error .expectedUInteger := by
  simp [parse_unsigned, Format.get_format, Format.ofByte, Format.to_u8,
    Format.is_positive_fixed_int, Format.is_negative_fixed_int, hr,
    Bind.bind, Except.bind]

theorem parse_signed_posfix (b : Nat) (t : List Nat) (h : b < 0x80) :
    parse_signed (b :: t) = .ok ((b : Int), t) := by
  have hm : b % 128 = b := Nat.mod_eq_of_lt h
  simp [parse_signed, Format.get_format, ofByte_posfix b h, Format.to_u8,
    hm, Format.is_positive_fixed_int, h, Bind.bind, Except.bind]

theorem parse_signed_negfix (b : Nat) (t : List Nat) (h1 : 0xe0 ≤ b)
    (h2 : b ≤ 0xff) : parse_signed (b :: t) = .ok ((b : Int) - 256, t) := by
  have hm : (((b : Int) - 256) % 256).toNat = b := by omega
  simp only [parse_signed, Format.get_format, ofByte_negfix b h1 h2,
    Bind.bind, Except.bind, Format.to_u8, hm]
  rw [if_neg (by simp only [Format.is_positive_fixed_int,
        decide_eq_true_eq]; omega),
      if_pos (by simp only [Format.is_negative_fixed_int, Bool.and_eq_true,
        decide_eq_true_eq]; omega)]
  simp only [toSigned]
  rw [if_neg (by omega)]
  norm_num

theorem parse_signed_uint8_ok (t u : List Nat) (n : Nat)
    (hr : readU8 t = .ok (n, u)) :
    parse_signed (0xcc :: t) = .ok ((n : Int), u) := by
  simp [parse_signed, Format.get_format, Format.ofByte, Format.to_u8,
    Format.is_positive_fixed_int, Format.is_negative_fixed_int, hr,
    Bind.bind, Except.bind, Except.map]

theorem parse_signed_uint16_ok (t u : List Nat) (n : Nat)
    (hr : readU16 t = .ok (n, u)) :
    parse_signed (0xcd :: t) = .ok ((n : Int), u) := by
  simp [parse_signed, Format.get_format, Format.ofByte, Format.to_u8,
    Format.is_positive_fixed_int, Format.is_negative_fixed_int, hr,
    Bind.bind, Except.bind, Except.map]

theorem parse_signed_uint32_ok (t u : List Nat) (n : Nat)
    (hr : readU32 t = .ok (n, u)) :
    parse_signed (0xce :: t) = .ok ((n : Int), u) := by
  simp [parse_signed, Format.get_format, Format.ofByte, Format.to_u8,
    Format.is_positive_fixed_int, Format.is_negative_fixed_int, hr,
    Bind.bind, Except.bind, Except.map]

theorem parse_signed_uint64_ok (t u : List Nat) (n : Nat)
    (hr : readU64 t = .ok (n, u)) :
    parse_signed (0xcf :: t) =
      if n ≤ 2 ^ 63 - 1 then .ok ((n : Int), u) else .error .message := by
  simp [parse_signed, Format.get_format, Format.ofByte, Format.to_u8,
    Format.is_positive_fixed_int, Format.is_negative_fixed_int, hr,
    Bind.bind, Except.bind]

theorem parse_signed_int8 (t : List Nat) :
    parse_signed (0xd0 :: t) = readI8 t := by
  simp [parse_signed, Format.get_format, Format.ofByte, Format.to_u8,
    Format.is_positive_fixed_int, Format.is_negative_fixed_int,
    Bind.bind, Except.bind]

theorem parse_signed_int16 (t : List Nat) :
    parse_signed (0xd1 :: t) = readI16 t := by
  simp [parse_signed, Format.get_format, Format.ofByte, Format.to_u8,
    Format.is_positive_fixed_int, Format.is_negative_fixed_int,
    Bind.bind, Except.bind]

theorem parse_signed_int32 (t : List Nat) :
    parse_signed (0xd2 :: t) = readI32 t := by
  simp [parse_signed, Format.get_format, Format.ofByte, Format.to_u8,
    Format.is_positive_fixed_int, Format.is_negative_fixed_int,
    Bind.bind, Except.bind]

theorem parse_signed_int64 (t : List Nat) :
    parse_signed (0xd3 :: t) = readI64 t := by
  simp [parse_signed, Format.get_format, Format.ofByte, Format.to_u8,
    Format.is_positive_fixed_int, Format.is_negative_fixed_int,
    Bind.bind, Except.bind]

theorem parse_unsigned_ser_u64 (v : Nat) (s : List Nat) (h : v < 2 ^ 64) :
    parse_unsigned (serialize_u64 v ++ s) = .ok (v, s) := by
  rw [serialize_u64]
  by_cases h1 : v < 2 ^ 7
  · rw [if_pos h1]
    have he : Format.set_format (.PositiveFixInt v) ++ s = (v % 128) :: s := by
      simp [Format.set_format, Format.to_u8]
    rw [he, show v % 128 = v by omega]
    exact parse_unsigned_posfix v s h1
  · rw [if_neg h1]
    by_cases h2 : v ≤ 0xff
    · rw [if_pos h2]
      have he : (Format.set_format .Uint8 ++ u8Bytes v) ++ s
          = 0xcc :: (u8Bytes v ++ s) := by
        simp [Format.set_format, Format.to_u8]
      rw [he, parse_unsigned_uint8, readU8_u8Bytes v s (by omega)]
    · rw [if_neg h2]
      by_cases h3 : v ≤ 0xffff
      · rw [if_pos h3]
        have he : (Format.set_format .Uint16 ++ u16Bytes v) ++ s
            = 0xcd :: (u16Bytes v ++ s) := by
          simp [Format.set_format, Format.to_u8]
        rw [he, parse_unsigned_uint16, readU16_u16Bytes v s (by omega)]
      · rw [if_neg h3]
        by_cases h4 : v ≤ 0xffffffff
        · rw [if_pos h4]
          have he : (Format.set_format .Uint32 ++ u32Bytes v) ++ s
              = 0xce :: (u32Bytes v ++ s) := by
            simp [Format.set_format, Format.to_u8]
          rw [he, parse_unsigned_uint32, readU32_u32Bytes v s (by omega)]
        · rw [if_neg h4]
          have he : (Format.set_format .Uint64 ++ u64Bytes v) ++ s
              = 0xcf :: (u64Bytes v ++ s) := by
            simp [Format.set_format, Format.to_u8]
          rw [he, parse_unsigned_uint64, readU64_u64Bytes v s h]

theorem parse_signed_ser_u64 (v : Nat) (s : List Nat) (h : v < 2 ^ 63) :
    parse_signed (serialize_u64 v ++ s) = .ok ((v : Int), s) := by
  rw [serialize_u64]
  by_cases h1 : v < 2 ^ 7
  · rw [if_pos h1]
    have he : Format.set_format (.PositiveFixInt v) ++ s = (v % 128) :: s := by
      simp [Format.set_format, Format.to_u8]
    rw [he, show v % 128 = v by omega]
    exact parse_signed_posfix v s h1
  · rw [if_neg h1]
    by_cases h2 : v ≤ 0xff
    · rw [if_pos h2]
      have he : (Format.set_format .Uint8 ++ u8Bytes v) ++ s
          = 0xcc :: (u8Bytes v ++ s) := by
        simp [Format.set_format, Format.to_u8]
      rw [he, parse_signed_uint8_ok _ s v (readU8_u8Bytes v s (by omega))]
    · rw [if_neg h2]
      by_cases h3 : v ≤ 0xffff
      · rw [if_pos h3]
        have he : (Format.set_format .Uint16 ++ u16Bytes v) ++ s
            = 0xcd :: (u16Bytes v ++ s) := by
          simp [Format.set_format, Format.to_u8]
        rw [he, parse_signed_uint16_ok _ s v (readU16_u16Bytes v s (by omega))]
      · rw [if_neg h3]
        by_cases h4 : v ≤ 0xffffffff
        · rw [if_pos h4]
          have he : (Format.set_format .Uint32 ++ u32Bytes v) ++ s
              = 0xce :: (u32Bytes v ++ s) := by
            simp [Format.set_format, Format.to_u8]
          rw [he,
            parse_signed_uint32_ok _ s v (readU32_u32Bytes v s (by omega))]
        · rw [if_neg h4]
          have he : (Format.set_format .Uint64 ++ u64Bytes v) ++ s
              = 0xcf :: (u64Bytes v ++ s) := by
            simp [Format.set_format, Format.to_u8]
          rw [he,
            parse_signed_uint64_ok _ s v (readU64_u64Bytes v s (by omega)),
            if_pos (by omega)]

theorem parse_signed_ser_i64 (v : Int) (s : List Nat) (hl : -(2 ^ 63) ≤ v)
    (hr : v < 2 ^ 63) : parse_signed (serialize_i64 v ++ s) = .ok (v, s) := by
  rw [serialize_i64]
  by_cases h0 : 0 ≤ v
  · rw [if_pos h0, parse_signed_ser_u64 v.toNat s (by omega)]
    simp only [Except.ok.injEq, Prod.mk.injEq, eq_self_iff_true, and_true,
      true_and]
    omega
  · rw [if_neg h0]
    by_cases hb : -32 ≤ v
    · rw [if_pos ⟨hb, by omega⟩]
      have hbyte1 : 0xe0 ≤ (v % 256).toNat := by omega
      have hbyte2 : (v % 256).toNat ≤ 0xff := by omega
      have he : Format.set_format (.NegativeFixInt v) ++ s
          = (v % 256).toNat :: s := by
        simp [Format.set_format, Format.to_u8]
      rw [he, parse_signed_negfix _ s hbyte1 hbyte2]
      simp only [Except.ok.injEq, Prod.mk.injEq, eq_self_iff_true, and_true,
        true_and]
      omega
    · rw [if_neg (by omega)]
      by_cases hc : -128 ≤ v
      · rw [if_pos ⟨by omega, by omega⟩]
        have he : (Format.set_format .Int8 ++ i8Bytes v) ++ s
            = 0xd0 :: (i8Bytes v ++ s) := by
          simp [Format.set_format, Format.to_u8]
        rw [he, parse_signed_int8, readI8_i8Bytes v s (by omega) (by omega)]
      · rw [if_neg (by omega)]
        by_cases hd : -(2 ^ 15) ≤ v
        · rw [if_pos ⟨by omega, by omega⟩]
          have he : (Format.set_format .Int16 ++ i16Bytes v) ++ s
              = 0xd1 :: (i16Bytes v ++ s) := by
            simp [Format.set_format, Format.to_u8]
          rw [he, parse_signed_int16,
            readI16_i16Bytes v s (by omega) (by omega)]
        · rw [if_neg (by omega)]
          by_cases hf : -(2 ^ 31) ≤ v
          · rw [if_pos ⟨by omega, by omega⟩]
            have he : (Format.set_format .Int32 ++ i32Bytes v) ++ s
                = 0xd2 :: (i32Bytes v ++ s) := by
              simp [Format.set_format, Format.to_u8]
            rw [he, parse_signed_int32,
              readI32_i32Bytes v s (by omega) (by omega)]
          · rw [if_neg (by omega)]
            have he : (Format.set_format .Int64 ++ i64Bytes v) ++ s
                = 0xd3 :: (i64Bytes v ++ s) := by
              simp [Format.set_format, Format.to_u8]
            rw [he, parse_signed_int64,
              readI64_i64Bytes v s (by omega) (by omega)]

theorem read_string_length_write (n : Nat) (t : List Nat) (h : n < 2 ^ 32) :
    read_string_length (write_string_length n ++ t) = .ok (n, t) := by
  rw [write_string_length]
  by_cases h1 : n < 32
  · rw [if_pos h1]
    have hb : Format.ofByte (0xa0 + n % 32) = .FixStr n := by
      rw [ofByte_fixstr _ (by omega) (by omega)]
      congr 1
      omega
    simp [read_string_length, peek_format, Format.get_format,
      Format.set_format, Format.to_u8, hb, Bind.bind, Except.bind,
      Except.map]
  · rw [if_neg h1]
    by_cases h2 : n ≤ 0xff
    · rw [if_pos h2]
      simp [read_string_length, peek_format, Format.get_format,
        Format.set_format, Format.to_u8, Format.ofByte, u8Bytes, readU8,
        Nat.mod_eq_of_lt (show n < 256 by omega), Bind.bind, Except.bind,
        Except.map]
    · rw [if_neg h2]
      by_cases h3 : n ≤ 0xffff
      · rw [if_pos h3]
        have hr := readU16_u16Bytes n t (by omega)
        simp [read_string_length, peek_format, Format.get_format,
          Format.set_format, Format.to_u8, Format.ofByte, hr, Bind.bind,
          Except.bind, Except.map]
      · rw [if_neg h3]
        have hr := readU32_u32Bytes n t (by omega)
        simp [read_string_length, peek_format, Format.get_format,
          Format.set_format, Format.to_u8, Format.ofByte, hr, Bind.bind,
          Except.bind, Except.map]

theorem read_bytes_length_write (n : Nat) (t : List Nat) (h : n < 2 ^ 32) :
    read_bytes_length (write_bytes_length n ++ t) = .ok (n, t) := by
  rw [write_bytes_length]
  by_cases h1 : n ≤ 0xff
  · rw [if_pos h1]
    simp [read_bytes_length, peek_format, Format.get_format,
      Format.set_format, Format.to_u8, Format.ofByte, u8Bytes, readU8,
      Nat.mod_eq_of_lt (show n < 256 by omega), Bind.bind, Except.bind,
      Except.map]
  · rw [if_neg h1]
    by_cases h2 : n ≤ 0xffff
    · rw [if_pos h2]
      have hr := readU16_u16Bytes n t (by omega)
      simp [read_bytes_length, peek_format, Format.get_format,
        Format.set_format, Format.to_u8, Format.ofByte, hr, Bind.bind,
        Except.bind, Except.map]
    · rw [if_neg h2]
      have hr := readU32_u32Bytes n t (by omega)
      simp [read_bytes_length, peek_format, Format.get_format,
        Format.set_format, Format.to_u8, Format.ofByte, hr, Bind.bind,
        Except.bind, Except.map]

theorem read_array_length_write (n : Nat) (t : List Nat) (h : n < 2 ^ 32) :
    read_array_length (write_array_length n ++ t) = .ok (n, t) := by
  rw [write_array_length]
  by_cases h1 : n < 16
  · rw [if_pos h1]
    have hb : Format.ofByte (0x90 + n % 16) = .FixArray n := by
      rw [ofByte_fixarray _ (by omega) (by omega)]
      congr 1
      omega
    simp [read_array_length, peek_format, Format.get_format,
      Format.set_format, Format.to_u8, hb, Bind.bind, Except.bind,
      Except.map]
  · rw [if_neg h1]
    by_cases h2 : n ≤ 0xffff
    · rw [if_pos h2]
      have hr := readU16_u16Bytes n t (by omega)
      simp [read_array_length, peek_format, Format.get_format,
        Format.set_format, Format.to_u8, Format.ofByte, hr, Bind.bind,
        Except.bind, Except.map]
    · rw [if_neg h2]
      have hr := readU32_u32Bytes n t (by omega)
      simp [read_array_length, peek_format, Format.get_format,
        Format.set_format, Format.to_u8, Format.ofByte, hr, Bind.bind,
        Except.bind, Except.map]

theorem read_map_length_write (n : Nat) (t : List Nat) (h : n < 2 ^ 32) :
    read_map_length (write_map_length n ++ t) = .ok (n, t) := by
  rw [write_map_length]
  by_cases h1 : n < 16
  · rw [if_pos h1]
    have hb : Format.ofByte (0x80 + n % 16) = .FixMap n := by
      rw [ofByte_fixmap _ (by omega) (by omega)]
      congr 1
      omega
    simp [read_map_length, peek_format, Format.get_format,
      Format.set_format, Format.to_u8, hb, Bind.bind, Except.bind,
      Except.map]
  · rw [if_neg h1]
    by_cases h2 : n ≤ 0xffff
    · rw [if_pos h2]
      have hr := readU16_u16Bytes n t (by omega)
      simp [read_map_length, peek_format, Format.get_format,
        Format.set_format, Format.to_u8, Format.ofByte, hr, Bind.bind,
        Except.bind, Except.map]
    · rw [if_neg h2]
      have hr := readU32_u32Bytes n t (by omega)
      simp [read_map_length, peek_format, Format.get_format,
        Format.set_format, Format.to_u8, Format.ofByte, hr, Bind.bind,
        Except.bind, Except.map]

theorem parse_string_encode (bs t : List Nat) (h : bs.length < 2 ^ 32)
    (hv : utf8Valid bs) : parse_string (encode_str_bytes bs ++ t)
      = .ok (bs, t) := by
  rw [encode_str_bytes, Nat.mod_eq_of_lt h, List.append_assoc]
  have h1 := read_string_length_write bs.length (bs ++ t) h
  simp only [parse_string, h1, Bind.bind, Except.bind, get_bytes,
    List.take_left, List.drop_left, hv, if_true]

theorem ofByte_ge_256 (b : Nat) (h : 0x100 ≤ b) :
    Format.ofByte b = .NegativeFixInt ((b : Int) - 256) := by
  unfold Format.ofByte
  repeat rw [if_neg (by omega)]

set_option maxRecDepth 4000 in
theorem ofByte_ne_nil (b : Nat) (h : b ≠ 0xc0) : Format.ofByte b ≠ .Nil := by
  by_cases hb : b < 0x100
  · have hd : ∀ x, x < 0x100 → x ≠ 0xc0 → Format.ofByte x ≠ .Nil := by
      decide
    exact hd b hb h
  · rw [ofByte_ge_256 b (by omega)]
    simp

theorem serialize_u64_cons (n : Nat) :
    ∃ b t, serialize_u64 n = b :: t ∧ b ≠ 0xc0 := by
  rw [serialize_u64]
  by_cases h1 : n < 2 ^ 7
  · rw [if_pos h1]
    exact ⟨n % 128, [], by simp [Format.set_format, Format.to_u8], by omega⟩
  · rw [if_neg h1]
    by_cases h2 : n ≤ 0xff
    · rw [if_pos h2]
      exact ⟨0xcc, u8Bytes n, by simp [Format.set_format, Format.to_u8],
        by omega⟩
    · rw [if_neg h2]
      by_cases h3 : n ≤ 0xffff
      · rw [if_pos h3]
        exact ⟨0xcd, u16Bytes n, by simp [Format.set_format, Format.to_u8],
          by omega⟩
      · rw [if_neg h3]
        by_cases h4 : n ≤ 0xffffffff
        · rw [if_pos h4]
          exact ⟨0xce, u32Bytes n, by simp [Format.set_format, Format.to_u8],
            by omega⟩
        · rw [if_neg h4]
          exact ⟨0xcf, u64Bytes n, by simp [Format.set_format, Format.to_u8],
            by omega⟩

theorem serialize_i64_cons (x : Int) :
    ∃ b t, serialize_i64 x = b :: t ∧ b ≠ 0xc0 := by
  rw [serialize_i64]
  by_cases h0 : 0 ≤ x
  · rw [if_pos h0]
    exact serialize_u64_cons x.toNat
  · rw [if_neg h0]
    by_cases h1 : -32 ≤ x ∧ x < 0
    · rw [if_pos h1]
      exact ⟨(x % 256).toNat, [], by simp [Format.set_format, Format.to_u8],
        by omega⟩
    · rw [if_neg h1]
      by_cases h2 : -128 ≤ x ∧ x ≤ 127
      · rw [if_pos h2]
        exact ⟨0xd0, i8Bytes x, by simp [Format.set_format, Format.to_u8],
          by omega⟩
      · rw [if_neg h2]
        by_cases h3 : -(2 ^ 15) ≤ x ∧ x ≤ 2 ^ 15 - 1
        · rw [if_pos h3]
          exact ⟨0xd1, i16Bytes x, by simp [Format.set_format, Format.to_u8],
            by omega⟩
        · rw [if_neg h3]
          by_cases h4 : -(2 ^ 31) ≤ x ∧ x ≤ 2 ^ 31 - 1
          · rw [if_pos h4]
            exact ⟨0xd2, i32Bytes x,
              by simp [Format.set_format, Format.to_u8], by omega⟩
          · rw [if_neg h4]
            exact ⟨0xd3, i64Bytes x,
              by simp [Format.set_format, Format.to_u8], by omega⟩

theorem write_string_length_cons (n : Nat) :
    ∃ b t, write_string_length n = b :: t ∧ b ≠ 0xc0 := by
  rw [write_string_length]
  by_cases h1 : n < 32
  · rw [if_pos h1]
    exact ⟨0xa0 + n % 32, [], by simp [Format.set_format, Format.to_u8],
      by omega⟩
  · rw [if_neg h1]
    by_cases h2 : n ≤ 0xff
    · rw [if_pos h2]
      exact ⟨0xd9, u8Bytes n, by simp [Format.set_format, Format.to_u8],
        by omega⟩
    · rw [if_neg h2]
      by_cases h3 : n ≤ 0xffff
      · rw [if_pos h3]
        exact ⟨0xda, u16Bytes n, by simp [Format.set_format, Format.to_u8],
          by omega⟩
      · rw [if_neg h3]
        exact ⟨0xdb, u32Bytes n, by simp [Format.set_format, Format.to_u8],
          by omega⟩

theorem write_bytes_length_cons (n : Nat) :
    ∃ b t, write_bytes_length n = b :: t ∧ b ≠ 0xc0 := by
  rw [write_bytes_length]
  by_cases h1 : n ≤ 0xff
  · rw [if_pos h1]
    exact ⟨0xc4, u8Bytes n, by simp [Format.set_format, Format.to_u8],
      by omega⟩
  · rw [if_neg h1]
    by_cases h2 : n ≤ 0xffff
    · rw [if_pos h2]
      exact ⟨0xc5, u16Bytes n, by simp [Format.set_format, Format.to_u8],
        by omega⟩
    · rw [if_neg h2]
      exact ⟨0xc6, u32Bytes n, by simp [Format.set_format, Format.to_u8],
        by omega⟩

theorem write_array_length_cons (n : Nat) :
    ∃ b t, write_array_length n = b :: t ∧ b ≠ 0xc0 := by
  rw [write_array_length]
  by_cases h1 : n < 16
  · rw [if_pos h1]
    exact ⟨0x90 + n % 16, [], by simp [Format.set_format, Format.to_u8],
      by omega⟩
  · rw [if_neg h1]
    by_cases h2 : n ≤ 0xffff
    · rw [if_pos h2]
      exact ⟨0xdc, u16Bytes n, by simp [Format.set_format, Format.to_u8],
        by omega⟩
    · rw [if_neg h2]
      exact ⟨0xdd, u32Bytes n, by simp [Format.set_format, Format.to_u8],
        by omega⟩

theorem write_map_length_cons (n : Nat) :
    ∃ b t, write_map_length n = b :: t ∧ b ≠ 0xc0 := by
  rw [write_map_length]
  by_cases h1 : n < 16
  · rw [if_pos h1]
    exact ⟨0x80 + n % 16, [], by simp [Format.set_format, Format.to_u8],
      by omega⟩
  · rw [if_neg h1]
    by_cases h2 : n ≤ 0xffff
    · rw [if_pos h2]
      exact ⟨0xde, u16Bytes n, by simp [Format.set_format, Format.to_u8],
        by omega⟩
    · rw [if_neg h2]
      exact ⟨0xdf, u32Bytes n, by simp [Format.set_format, Format.to_u8],
        by omega⟩

theorem write_ext_map_len_cons (n : Nat) :
    ∃ b t, write_ext_map_len n = b :: t ∧ b ≠ 0xc0 := by
  rw [write_ext_map_len]
  by_cases h1 : n ≤ 0xff
  · rw [if_pos h1]
    exact ⟨0xc7, u8Bytes n, by simp [Format.set_format, Format.to_u8],
      by omega⟩
  · rw [if_neg h1]
    by_cases h2 : n ≤ 0xffff
    · rw [if_pos h2]
      exact ⟨0xc8, u16Bytes n, by simp [Format.set_format, Format.to_u8],
        by omega⟩
    · rw [if_neg h2]
      exact ⟨0xc9, u32Bytes n, by simp [Format.set_format, Format.to_u8],
        by omega⟩

theorem good_vbin : ∀ (sh : Shape) (bs : List Nat),
    Good sh (.vbin bs) = true → bs.isEmpty = false := by
  suffices H : ∀ (n : Nat) (sh : Shape), sizeOf sh ≤ n → ∀ bs,
      Good sh (.vbin bs) = true → bs.isEmpty = false by
    intro sh bs h
    exact H (sizeOf sh) sh le_rfl bs h
  intro n
  induction n with
  | zero =>
    intro sh hsz
    exfalso
    cases sh <;> simp at hsz
  | succ n ih =>
    intro sh hsz bs hg
    cases sh <;> (try (simp [Good] at hg)) <;> try assumption
    case bin =>
      cases bs with
      | nil => exact absurd rfl hg.1
      | cons a l => rfl
    case option sh =>
      exact ih sh (by simp at hsz; omega) bs hg

theorem encode_cons (sh : Shape) (v : Value) (hg : Good sh v = true)
    (hv : v ≠ .vnull) : ∃ b t, encodeValue v = b :: t ∧ b ≠ 0xc0 := by
  cases v with
  | vbool b =>
    cases b
    · exact ⟨0xc2, [], by simp [encodeValue, serialize_bool,
        Format.set_format, Format.to_u8], by omega⟩
    · exact ⟨0xc3, [], by simp [encodeValue, serialize_bool,
        Format.set_format, Format.to_u8], by omega⟩
  | vu n =>
    obtain ⟨b, t, he, hb⟩ := serialize_u64_cons n
    refine ⟨b, t, ?_, hb⟩
    rw [show encodeValue (.vu n) = serialize_u64 n from by
      simp [encodeValue], he]
  | vi x =>
    obtain ⟨b, t, he, hb⟩ := serialize_i64_cons x
    refine ⟨b, t, ?_, hb⟩
    rw [show encodeValue (.vi x) = serialize_i64 x from by
      simp [encodeValue], he]
  | vstr bs =>
    obtain ⟨b, t, he, hb⟩ := write_string_length_cons (bs.length % 2 ^ 32)
    refine ⟨b, t ++ bs, ?_, hb⟩
    rw [show encodeValue (.vstr bs) = encode_str_bytes bs from by
      simp [encodeValue], encode_str_bytes, he, List.cons_append]
  | vbin bs =>
    have hne := good_vbin sh bs hg
    obtain ⟨b, t, he, hb⟩ := write_bytes_length_cons (bs.length % 2 ^ 32)
    refine ⟨b, t ++ bs, ?_, hb⟩
    rw [show encodeValue (.vbin bs) = serialize_bytes bs from by
      simp [encodeValue], serialize_bytes, if_neg (by simp [hne]), he,
      List.cons_append]
  | vnull => exact absurd rfl hv
  | varr xs =>
    obtain ⟨b, t, he, hb⟩ := write_array_length_cons xs.length
    refine ⟨b, t ++ encodeList xs, ?_, hb⟩
    rw [show encodeValue (.varr xs)
        = write_array_length xs.length ++ encodeList xs from by
      simp [encodeValue], he, List.cons_append]
  | vmap kvs =>
    obtain ⟨b, t, he, hb⟩ :=
      write_ext_map_len_cons (write_map_length kvs.length
        ++ encodePairs kvs).length
    refine ⟨b, t ++ (write_ext_map_type ++ (write_map_length kvs.length
      ++ encodePairs kvs)), ?_, hb⟩
    rw [show encodeValue (.vmap kvs)
        = write_ext_map_len (write_map_length kvs.length
            ++ encodePairs kvs).length
          ++ (write_ext_map_type ++ (write_map_length kvs.length
            ++ encodePairs kvs)) from by
      simp [encodeValue], he, List.cons_append]
  | vstrct fs =>
    obtain ⟨b, t, he, hb⟩ := write_map_length_cons fs.length
    refine ⟨b, t ++ encodeFields fs, ?_, hb⟩
    rw [show encodeValue (.vstrct fs)
        = write_map_length fs.length ++ encodeFields fs from by
      simp [encodeValue], he, List.cons_append]

theorem decode_option_not_nil (sh : Shape) (b : Nat) (t : List Nat)
    (h : b ≠ 0xc0) :
    decodeValue (.option sh) (b :: t) = decodeValue sh (b :: t) := by
  have hn := ofByte_ne_nil b h
  simp only [decodeValue, peek_format, Format.get_format, Except.map,
    Bind.bind, Except.bind]

theorem GoodFields_length : ∀ (fsh : List (List Nat × Shape))
    (fv : List (List Nat × Value)), GoodFields fsh fv = true →
    fv.length = fsh.length := by
  intro fsh
  induction fsh with
  | nil =>
    intro fv h
    cases fv with
    | nil => rfl
    | cons q fv2 => simp [GoodFields] at h
  | cons p fsh2 ihf =>
    obtain ⟨nm, sh⟩ := p
    intro fv h
    cases fv with
    | nil => simp [GoodFields] at h
    | cons q fv2 =>
      obtain ⟨nm2, v⟩ := q
      simp only [GoodFields, Bool.and_eq_true] at h
      simp [ihf fv2 h.2]

/-- Round trip with a suffix: the decoder, driven by the matching shape,
reads back exactly the bytes the encoder emitted for any decoder-accepted
value, leaving the suffix untouched. -/
theorem decode_encode_good : ∀ (sh : Shape) (v : Value), Good sh v = true →
    ∀ s, decodeValue sh (encodeValue v ++ s) = .ok (v, s) := by
  suffices H : ∀ (n : Nat) (sh : Shape) (v : Value),
      sizeOf sh + sizeOf v ≤ n → Good sh v = true →
      ∀ s, decodeValue sh (encodeValue v ++ s) = .ok (v, s) by
    intro sh v hg s
    exact H (sizeOf sh + sizeOf v) sh v le_rfl hg s
  intro n
  induction n with
  | zero =>
    intro sh v hsz
    exfalso
    cases sh <;> simp at hsz
  | succ n ih =>
    intro sh v hsz hg s
    cases sh with
    | bool =>
      cases v <;> simp [Good] at hg
      case vbool b =>
        cases b <;>
          simp [encodeValue, serialize_bool, Format.set_format,
            Format.to_u8, decodeValue, Format.get_format, Format.ofByte,
            Bind.bind, Except.bind]
    | u8 =>
      cases v <;> simp [Good] at hg
      case vu m =>
        rw [show encodeValue (.vu m) = serialize_u64 m from by
          simp [encodeValue]]
        simp only [decodeValue, Bind.bind, Except.bind]
        rw [parse_unsigned_ser_u64 m s (by omega)]
        simp [hg]
    | u16 =>
      cases v <;> simp [Good] at hg
      case vu m =>
        rw [show encodeValue (.vu m) = serialize_u64 m from by
          simp [encodeValue]]
        simp only [decodeValue, Bind.bind, Except.bind]
        rw [parse_unsigned_ser_u64 m s (by omega)]
        simp [hg]
    | u32 =>
      cases v <;> simp [Good] at hg
      case vu m =>
        rw [show encodeValue (.vu m) = serialize_u64 m from by
          simp [encodeValue]]
        simp only [decodeValue, Bind.bind, Except.bind]
        rw [parse_unsigned_ser_u64 m s (by omega)]
        simp [hg]
    | u64 =>
      cases v <;> simp [Good] at hg
      case vu m =>
        rw [show encodeValue (.vu m) = serialize_u64 m from by
          simp [encodeValue]]
        simp only [decodeValue, Bind.bind, Except.bind]
        rw [parse_unsigned_ser_u64 m s (by omega)]
    | i8 =>
      cases v <;> simp [Good] at hg
      case vi x =>
        rw [show encodeValue (.vi x) = serialize_i64 x from by
          simp [encodeValue]]
        simp only [decodeValue, Bind.bind, Except.bind]
        rw [parse_signed_ser_i64 x s (by omega) (by omega)]
        simp [hg.1, hg.2]
    | i16 =>
      cases v <;> simp [Good] at hg
      case vi x =>
        rw [show encodeValue (.vi x) = serialize_i64 x from by
          simp [encodeValue]]
        simp only [decodeValue, Bind.bind, Except.bind]
        rw [parse_signed_ser_i64 x s (by omega) (by omega)]
        simp [hg.1, hg.2]
    | i32 =>
      cases v <;> simp [Good] at hg
      case vi x =>
        rw [show encodeValue (.vi x) = serialize_i64 x from by
          simp [encodeValue]]
        simp only [decodeValue, Bind.bind, Except.bind]
        rw [parse_signed_ser_i64 x s (by omega) (by omega)]
        simp [hg.1, hg.2]
    | i64 =>
      cases v <;> simp [Good] at hg
      case vi x =>
        rw [show encodeValue (.vi x) = serialize_i64 x from by
          simp [encodeValue]]
        simp only [decodeValue, Bind.bind, Except.bind]
        rw [parse_signed_ser_i64 x s (by omega) (by omega)]
    | str =>
      cases v <;> simp [Good] at hg
      case vstr bs =>
        rw [show encodeValue (.vstr bs) = encode_str_bytes bs from by
          simp [encodeValue]]
        simp only [decodeValue, Bind.bind, Except.bind]
        rw [parse_string_encode bs s (by omega) hg.1]
    | bin =>
      cases v <;> simp [Good] at hg
      case vbin bs =>
        rw [show encodeValue (.vbin bs) = serialize_bytes bs from by
          simp [encodeValue]]
        rw [serialize_bytes, if_neg (by simp [hg.1]),
          Nat.mod_eq_of_lt (show bs.length < 2 ^ 32 by omega),
          List.append_assoc]
        simp only [decodeValue, Bind.bind, Except.bind]
        rw [read_bytes_length_write bs.length (bs ++ s) (by omega)]
        simp [Except.bind, get_bytes, List.take_left, List.drop_left]
    | unit =>
      cases v <;> simp [Good] at hg
      case vnull =>
        simp [encodeValue, Format.set_format, Format.to_u8, decodeValue,
          Format.get_format, Format.ofByte, Bind.bind, Except.bind]
    | option sh2 =>
      by_cases hv : v = .vnull
      · subst hv
        simp [encodeValue, Format.set_format, Format.to_u8, decodeValue,
          peek_format, Format.get_format, Format.ofByte, Bind.bind,
          Except.bind, Except.map]
      · have hg2 : Good sh2 v = true := by
          cases v <;> simp_all [Good]
        obtain ⟨b, t, he, hb⟩ := encode_cons sh2 v hg2 hv
        rw [he, List.cons_append, decode_option_not_nil sh2 b (t ++ s) hb,
          ← List.cons_append, ← he]
        exact ih sh2 v (by simp at hsz; omega) hg2 s
    | arr sh2 =>
      cases v <;> simp [Good] at hg
      case varr xs =>
        have hszk : sizeOf xs + sizeOf sh2 ≤ n := by simp at hsz; omega
        have key : ∀ (ys : List Value), sizeOf ys + sizeOf sh2 ≤ n →
            GoodList sh2 ys = true → ∀ t,
            decodeElems sh2 ys.length (encodeList ys ++ t)
              = .ok (ys, t) := by
          intro ys
          induction ys with
          | nil =>
            intro _ _ t
            simp [encodeList, decodeElems]
          | cons y ys2 ihy =>
            intro hszl hgl t
            simp only [GoodList, Bool.and_eq_true] at hgl
            simp only [encodeList, List.length_cons, decodeElems,
              Bind.bind, Except.bind, List.append_assoc]
            rw [ih sh2 y (by simp at hszl; omega) hgl.1
              (encodeList ys2 ++ t)]
            simp only [Except.bind]
            rw [ihy (by simp at hszl; omega) hgl.2 t]
        rw [show encodeValue (.varr xs)
            = write_array_length xs.length ++ encodeList xs from by
          simp [encodeValue]]
        simp only [decodeValue, Bind.bind, Except.bind]
        rw [List.append_assoc,
          read_array_length_write xs.length (encodeList xs ++ s) (by omega)]
        simp only [Except.bind]
        rw [key xs hszk hg.2 s]
    | map ksh vsh =>
      cases v <;> simp [Good] at hg
    | strct fields =>
      cases v <;> simp [Good] at hg
      case vstrct fs =>
        have hlen := GoodFields_length fields fs hg.2
        have hszk : sizeOf fields + sizeOf fs ≤ n := by simp at hsz; omega
        have key : ∀ (gsh : List (List Nat × Shape))
            (gv : List (List Nat × Value)),
            sizeOf gsh + sizeOf gv ≤ n → GoodFields gsh gv = true → ∀ t,
            decodeFieldsD gsh (encodeFields gv ++ t) = .ok (gv, t) := by
          intro gsh
          induction gsh with
          | nil =>
            intro gv hszf hgf t
            cases gv with
            | nil => simp [encodeFields, decodeFieldsD]
            | cons q gv2 => simp [GoodFields] at hgf
          | cons p gsh2 ihf =>
            obtain ⟨nm, fsh⟩ := p
            intro gv hszf hgf t
            cases gv with
            | nil => simp [GoodFields] at hgf
            | cons q gv2 =>
              obtain ⟨nm2, w⟩ := q
              simp only [GoodFields, Bool.and_eq_true,
                decide_eq_true_eq] at hgf
              obtain ⟨⟨⟨⟨heq, hvalid⟩, hnmlen⟩, hgw⟩, hgf2⟩ := hgf
              subst heq
              simp only [encodeFields, decodeFieldsD, Bind.bind,
                Except.bind, List.append_assoc]
              rw [parse_string_encode nm2
                (encodeValue w ++ (encodeFields gv2 ++ t)) hnmlen hvalid]
              simp only [if_true]
              rw [ih fsh w (by simp at hszf; omega) hgw
                (encodeFields gv2 ++ t)]
              simp only []
              rw [ihf gv2 (by simp at hszf; omega) hgf2 t]
        rw [show encodeValue (.vstrct fs)
            = write_map_length fs.length ++ encodeFields fs from by
          simp [encodeValue]]
        simp only [decodeValue, Bind.bind, Except.bind]
        rw [List.append_assoc,
          read_map_length_write fs.length (encodeFields fs ++ s)
            (by omega)]
        simp only [Except.bind]
        rw [if_pos hlen, key fields fs hszk hg.2 s]

theorem utf8Decode_singleton (b : Nat) (cps : List Nat)
    (h : utf8Decode [b] = some cps) : b < 0x80 ∧ cps = [b] := by
  by_cases hb : b < 0x80
  · refine ⟨hb, ?_⟩
    simp [utf8Decode, hb] at h
    exact h.symm
  · exfalso
    simp only [utf8Decode, hb, if_false] at h
    split_ifs at h <;>
      simp_all [utf8DecodeTwo, utf8DecodeThree, utf8DecodeFour]

/-! ## Claims -/

/-- C1: the claim reads `deserialize_map` as accepting the extension header
exactly when the extension-type byte equals `GenericMap` (1), failing with
`ExpectedExt` otherwise.  The code does the opposite: `if let
ExtensionType::GenericMap = ext_type { return Err(ExpectedExt) }` fires
precisely when the type byte *is* `GenericMap`, so the decode of the crate's
own `test_read_ext_map_8` input (which expects success) fails: the header is
parsed fine — `Ext8`, byte length 11, type byte 1 = `GenericMap` — and then
`deserialize_map` errors with `ExpectedExt`. -/
theorem c1_deserialize_map_rejects_generic_map :
    read_ext_length_and_type
        [199, 11, 1, 130, 1, 147, 3, 5, 9, 2, 147, 1, 4, 7]
      = .ok ((11, ExtensionType.GenericMap),
          [130, 1, 147, 3, 5, 9, 2, 147, 1, 4, 7])
    ∧ decodeValue (.map .i32 (.arr .i32))
        [199, 11, 1, 130, 1, 147, 3, 5, 9, 2, 147, 1, 4, 7]
      = .error .expectedExt := by
  constructor
  · simp [read_ext_length_and_type, Format.get_format, Format.ofByte,
      readU8, ExtensionType.ofU8, Bind.bind, Except.bind]
  · simp [decodeValue, read_ext_length_and_type, Format.get_format,
      Format.ofByte, readU8, ExtensionType.ofU8, Bind.bind, Except.bind]

/-- C2: the round-trip law `from_slice (to_vec v) = v` fails on the code
for every generic map, because `MapSerializer::end` wraps the map in the
`GenericMap` extension envelope and `deserialize_map` then rejects exactly
that envelope (the C1 bug).  Witnessed on the one-entry map `{1 ↦ 2}`:
encoding succeeds (`Ext8`, length 3, type byte 1, `FixMap(1)`, key 1,
value 2), and decoding the encoder's own output fails with `ExpectedExt`
instead of returning the map. -/
theorem c2_roundtrip_fails_for_generic_map :
    encodeValue (.vmap [(.vu 1, .vu 2)]) = [0xc7, 3, 1, 0x81, 1, 2]
    ∧ from_slice (.map .u8 .u8) (encodeValue (.vmap [(.vu 1, .vu 2)]))
      = .error .expectedExt := by
  have he : encodeValue (.vmap [(.vu 1, .vu 2)]) = [0xc7, 3, 1, 0x81, 1, 2] := by
    simp [encodeValue, encodePairs, serialize_u64, write_map_length,
      write_ext_map_len, write_ext_map_type, Format.set_format,
      Format.to_u8, u8Bytes, ExtensionType.toU8]
  refine ⟨he, ?_⟩
  rw [he]
  simp [from_slice, decodeValue, read_ext_length_and_type,
    Format.get_format, Format.ofByte, readU8, ExtensionType.ofU8,
    Bind.bind, Except.bind]

/-- C9: serializing a generic map with zero entries still wraps it in the
extension envelope: `MapSerializer::end` on an empty entry list emits
exactly `0xc7 0x01 0x01 0x80` — an `Ext8` header with byte length 1, the
`GenericMap` type byte, and a `FixMap(0)` inner body. -/
theorem c9_empty_generic_map_envelope :
    map_serializer_end [] = [0xc7, 0x01, 0x01, 0x80] := by
  simp [map_serializer_end, write_map_length, write_ext_map_len,
    write_ext_map_type, Format.set_format, Format.to_u8, u8Bytes,
    ExtensionType.toU8]

/-- C7 counterexample: the claim promises that a single code point decodes
as a char regardless of its UTF-8 byte width, but `deserialize_char` tests
`str.len() == 1`, the *byte* length.  The bytes `0xa2 0xc3 0xa9` are
`FixStr(2)` followed by the valid two-byte UTF-8 of the single code point
U+00E9: `parse_string` accepts them and the string is exactly one code
point, yet `deserialize_char` fails with `ExpectedChar`. -/
theorem c7_counterexample_two_byte_char :
    parse_string [0xa2, 0xc3, 0xa9] = .ok ([0xc3, 0xa9], [])
    ∧ utf8Decode [0xc3, 0xa9] = some [0xe9]
    ∧ deserialize_char [0xa2, 0xc3, 0xa9] = .error .expectedChar := by
  refine ⟨?_, ?_, ?_⟩
  · simp [parse_string, read_string_length, peek_format, Format.get_format,
      Format.ofByte, get_bytes, utf8Valid, utf8Decode, utf8DecodeTwo,
      isCont, Bind.bind, Except.bind, Except.map]
  · simp [utf8Decode, utf8DecodeTwo, isCont]
  · simp [deserialize_char, parse_string, read_string_length, peek_format,
      Format.get_format, Format.ofByte, get_bytes, utf8Valid, utf8Decode,
      utf8DecodeTwo, isCont, Bind.bind, Except.bind, Except.map]

/-- C7 (amended): a character decode first parses a string; it succeeds
exactly when that string is a single one-byte (ASCII) code point, yielding
that code point, and fails with `ExpectedChar` for every other byte
length — including strings that consist of exactly one code point whose
UTF-8 width is two bytes or more. -/
theorem c7_amended_char_needs_one_byte (buf bytes rest cps : List Nat)
    (hp : parse_string buf = .ok (bytes, rest))
    (hd : utf8Decode bytes = some cps) :
    (bytes.length = 1 →
      ∃ c, c < 0x80 ∧ cps = [c] ∧ deserialize_char buf = .ok (c, rest))
    ∧ (bytes.length ≠ 1 → deserialize_char buf = .error .expectedChar)
    ∧ (∀ c, cps = [c] → 0x80 ≤ c →
        deserialize_char buf = .error .expectedChar) := by
  have hne : bytes.length ≠ 1 → deserialize_char buf
      = .error .expectedChar := by
    intro h1
    simp only [deserialize_char, Bind.bind, Except.bind]
    rw [hp]
    simp only []
    rw [if_neg h1]
  have hone : bytes.length = 1 →
      ∃ c, c < 0x80 ∧ cps = [c] ∧ deserialize_char buf = .ok (c, rest) := by
    intro h1
    obtain ⟨b, hbs⟩ := List.length_eq_one.mp h1
    subst hbs
    obtain ⟨hlt, hcps⟩ := utf8Decode_singleton b cps hd
    refine ⟨b, hlt, hcps, ?_⟩
    simp only [deserialize_char, Bind.bind, Except.bind]
    rw [hp]
    simp only []
    rw [if_pos h1, hd, hcps]
    simp
  refine ⟨hone, hne, ?_⟩
  intro c hc hge
  by_cases h1 : bytes.length = 1
  · exfalso
    obtain ⟨b, hlt, hcps, _⟩ := hone h1
    rw [hc] at hcps
    cases hcps
    omega
  · exact hne h1

theorem c7_amended_witness : deserialize_char [0xa1, 0x41]
    = .ok (0x41, []) := by
  have hp : parse_string [0xa1, 0x41] = .ok ([0x41], []) := by
    simp [parse_string, read_string_length, peek_format, Format.get_format,
      Format.ofByte, get_bytes, utf8Valid, utf8Decode, Bind.bind,
      Except.bind, Except.map]
  have hd : utf8Decode [0x41] = some [0x41] := by
    simp [utf8Decode]
  obtain ⟨c, hc, hcps, hok⟩ :=
    (c7_amended_char_needs_one_byte [0xa1, 0x41] [0x41] [] [0x41] hp hd).1
      rfl
  injection hcps with h1 h2
  subst h1
  exact hok

/-- C3: integer encoding follows the shortest-valid-form tables with
inclusive endpoints.  Unsigned: one byte `u` below 128, then
`Uint8/16/32/64` (`0xcc/0xcd/0xce/0xcf`) with 1/2/4/8 big-endian payload
bytes at the 0xff/0xffff/0xffffffff boundaries.  Signed: non-negative
values reuse the unsigned table, `-32 ≤ i < 0` is the single
`NegativeFixInt` byte (two's complement `i + 256`), and otherwise
`Int8/16/32/64` (`0xd0/0xd1/0xd2/0xd3` plus 1/2/4/8 big-endian
two's-complement payload bytes) is the narrowest width that fits. -/
theorem c3_integer_shortest_form :
    (∀ u : Nat, u < 2 ^ 64 →
      ((u < 128 → serialize_u64 u = [u])
        ∧ (128 ≤ u → u ≤ 0xff → serialize_u64 u = [0xcc, u])
        ∧ (0xff < u → u ≤ 0xffff → serialize_u64 u = 0xcd :: u16Bytes u)
        ∧ (0xffff < u → u ≤ 0xffffffff →
            serialize_u64 u = 0xce :: u32Bytes u)
        ∧ (0xffffffff < u → serialize_u64 u = 0xcf :: u64Bytes u)))
    ∧ (∀ x : Int, -(2 ^ 63) ≤ x → x < 2 ^ 63 →
      ((0 ≤ x → serialize_i64 x = serialize_u64 x.toNat)
        ∧ (-32 ≤ x → x < 0 → serialize_i64 x = [(x + 256).toNat])
        ∧ (-128 ≤ x → x < -32 → serialize_i64 x = [0xd0, (x + 256).toNat])
        ∧ (-(2 ^ 15) ≤ x → x < -128 →
            serialize_i64 x = 0xd1 :: u16Bytes (x + 2 ^ 16).toNat)
        ∧ (-(2 ^ 31) ≤ x → x < -(2 ^ 15) →
            serialize_i64 x = 0xd2 :: u32Bytes (x + 2 ^ 32).toNat)
        ∧ (x < -(2 ^ 31) →
            serialize_i64 x = 0xd3 :: u64Bytes (x + 2 ^ 64).toNat))) := by
  constructor
  · intro u hu
    refine ⟨?_, ?_, ?_, ?_, ?_⟩
    · intro h1
      rw [serialize_u64, if_pos (show u < 2 ^ 7 by omega)]
      simp [Format.set_format, Format.to_u8]
      omega
    · intro h1 h2
      rw [serialize_u64, if_neg (by omega), if_pos h2]
      simp [Format.set_format, Format.to_u8, u8Bytes]
      omega
    · intro h1 h2
      rw [serialize_u64, if_neg (by omega), if_neg (by omega), if_pos h2]
      simp [Format.set_format, Format.to_u8]
    · intro h1 h2
      rw [serialize_u64, if_neg (by omega), if_neg (by omega),
        if_neg (by omega), if_pos h2]
      simp [Format.set_format, Format.to_u8]
    · intro h1
      rw [serialize_u64, if_neg (by omega), if_neg (by omega),
        if_neg (by omega), if_neg (by omega)]
      simp [Format.set_format, Format.to_u8]
  · intro x hl hr
    refine ⟨?_, ?_, ?_, ?_, ?_, ?_⟩
    · intro h1
      rw [serialize_i64, if_pos h1]
    · intro h1 h2
      rw [serialize_i64, if_neg (by omega), if_pos ⟨h1, h2⟩]
      simp [Format.set_format, Format.to_u8]
      omega
    · intro h1 h2
      rw [serialize_i64, if_neg (by omega), if_neg (by omega),
        if_pos ⟨h1, by omega⟩]
      simp [Format.set_format, Format.to_u8, i8Bytes, u8Bytes]
      omega
    · intro h1 h2
      rw [serialize_i64, if_neg (by omega), if_neg (by omega),
        if_neg (by omega), if_pos ⟨h1, by omega⟩]
      have harg : (x % 65536).toNat = (x + 65536).toNat := by omega
      simp [Format.set_format, Format.to_u8, i16Bytes, harg]
    · intro h1 h2
      rw [serialize_i64, if_neg (by omega), if_neg (by omega),
        if_neg (by omega), if_neg (by omega), if_pos ⟨h1, by omega⟩]
      have harg : (x % 4294967296).toNat = (x + 4294967296).toNat := by omega
      simp [Format.set_format, Format.to_u8, i32Bytes, harg]
    · intro h1
      rw [serialize_i64, if_neg (by omega), if_neg (by omega),
        if_neg (by omega), if_neg (by omega), if_neg (by omega)]
      have harg : (x % 18446744073709551616).toNat = (x + 18446744073709551616).toNat := by omega
      simp [Format.set_format, Format.to_u8, i64Bytes, harg]

theorem c3_witness :
    serialize_u64 545345 = 0xce :: u32Bytes 545345
    ∧ serialize_i64 (-33) = [0xd0, 223]
    ∧ serialize_u64 127 = [127] := by
  refine ⟨?_, ?_, ?_⟩
  · exact ((c3_integer_shortest_form.1 545345 (by omega)).2.2.2.1
      (by omega) (by omega))
  · have h := (c3_integer_shortest_form.2 (-33) (by omega)
      (by omega)).2.2.1 (by omega) (by omega)
    simpa using h
  · exact (c3_integer_shortest_form.1 127 (by omega)).1 (by omega)

/-- C6: an unsigned-integer decode that consumes an `Int8/16/32/64` tag
(`0xd0/0xd1/0xd2/0xd3`) yields the encoded two's-complement value exactly
when it is non-negative and fails with `ExpectedUInteger` when it is
negative; a `NegativeFixInt` tag (`0xe0..=0xff`) likewise fails with
`ExpectedUInteger`. -/
theorem c6_uint_decode_of_int_tags :
    (∀ (x : Int) (rest : List Nat), -(2 ^ 7) ≤ x → x < 2 ^ 7 →
      parse_unsigned (0xd0 :: (i8Bytes x ++ rest))
        = if 0 ≤ x then .ok (x.toNat, rest) else .error .expectedUInteger)
    ∧ (∀ (x : Int) (rest : List Nat), -(2 ^ 15) ≤ x → x < 2 ^ 15 →
      parse_unsigned (0xd1 :: (i16Bytes x ++ rest))
        = if 0 ≤ x then .ok (x.toNat, rest) else .error .expectedUInteger)
    ∧ (∀ (x : Int) (rest : List Nat), -(2 ^ 31) ≤ x → x < 2 ^ 31 →
      parse_unsigned (0xd2 :: (i32Bytes x ++ rest))
        = if 0 ≤ x then .ok (x.toNat, rest) else .error .expectedUInteger)
    ∧ (∀ (x : Int) (rest : List Nat), -(2 ^ 63) ≤ x → x < 2 ^ 63 →
      parse_unsigned (0xd3 :: (i64Bytes x ++ rest))
        = if 0 ≤ x then .ok (x.toNat, rest) else .error .expectedUInteger)
    ∧ (∀ (b : Nat) (rest : List Nat), 0xe0 ≤ b → b ≤ 0xff →
      parse_unsigned (b :: rest) = .error .expectedUInteger) := by
  refine ⟨?_, ?_, ?_, ?_, ?_⟩
  · intro x rest h1 h2
    exact parse_unsigned_int8_ok _ rest x (readI8_i8Bytes x rest h1 h2)
  · intro x rest h1 h2
    exact parse_unsigned_int16_ok _ rest x (readI16_i16Bytes x rest h1 h2)
  · intro x rest h1 h2
    exact parse_unsigned_int32_ok _ rest x (readI32_i32Bytes x rest h1 h2)
  · intro x rest h1 h2
    exact parse_unsigned_int64_ok _ rest x (readI64_i64Bytes x rest h1 h2)
  · intro b rest h1 h2
    exact parse_unsigned_negfix b rest h1 h2

theorem c6_witness :
    parse_unsigned (0xd1 :: (i16Bytes (-5) ++ [])) = .error .expectedUInteger
    ∧ parse_unsigned (0xd1 :: (i16Bytes 300 ++ [])) = .ok (300, [])
    ∧ parse_unsigned (0xe0 :: []) = .error .expectedUInteger := by
  refine ⟨?_, ?_, ?_⟩
  · have h := c6_uint_decode_of_int_tags.2.1 (-5) [] (by omega) (by omega)
    simpa using h
  · have h := c6_uint_decode_of_int_tags.2.1 300 [] (by omega) (by omega)
    simpa using h
  · exact c6_uint_decode_of_int_tags.2.2.2.2 0xe0 [] (by omega) (by omega)

/-- C4: a structure is emitted by `StructSerializer::end` as a bare
map-length header — `FixMap` below 16 fields, `Map16` up to `0xffff`,
`Map32` beyond — followed by the buffered (field-name, value) pairs, with
no extension envelope; a generic map is emitted by `MapSerializer::end` as
an extension-length header chosen by the byte length of the inner body
(`Ext8` up to `0xff`, `Ext16` up to `0xffff`, `Ext32` beyond), then the
`GenericMap` type byte 1, then the inner body: a map-length header
followed by the buffered key/value pairs. -/
theorem c4_struct_bare_map_vs_generic_map_envelope
    (fields : List (String × List Nat))
    (entries : List (List Nat × List Nat)) :
    (fields.length < 16 → struct_serializer_end fields
        = (0x80 + fields.length)
          :: (fields.map fun f => serialize_str f.1 ++ f.2).flatten)
    ∧ (16 ≤ fields.length → fields.length ≤ 0xffff →
        struct_serializer_end fields
          = (0xde :: u16Bytes fields.length)
            ++ (fields.map fun f => serialize_str f.1 ++ f.2).flatten)
    ∧ (0xffff < fields.length → struct_serializer_end fields
        = (0xdf :: u32Bytes fields.length)
          ++ (fields.map fun f => serialize_str f.1 ++ f.2).flatten)
    ∧ map_serializer_end entries
        = write_ext_map_len (write_map_length entries.length
            ++ (entries.map fun e => e.1 ++ e.2).flatten).length
          ++ 0x01 :: (write_map_length entries.length
            ++ (entries.map fun e => e.1 ++ e.2).flatten)
    ∧ (∀ L : Nat, (L ≤ 0xff → write_ext_map_len L = [0xc7, L % 256])
        ∧ (0xff < L → L ≤ 0xffff → write_ext_map_len L
            = 0xc8 :: u16Bytes L)
        ∧ (0xffff < L → write_ext_map_len L = 0xc9 :: u32Bytes L)) := by
  refine ⟨?_, ?_, ?_, ?_, ?_⟩
  · intro h1
    rw [struct_serializer_end, write_map_length, if_pos h1]
    simp [Format.set_format, Format.to_u8]
    omega
  · intro h1 h2
    rw [struct_serializer_end, write_map_length, if_neg (by omega),
      if_pos h2]
    simp [Format.set_format, Format.to_u8]
  · intro h1
    rw [struct_serializer_end, write_map_length, if_neg (by omega),
      if_neg (by omega)]
    simp [Format.set_format, Format.to_u8]
  · simp [map_serializer_end, write_ext_map_type, ExtensionType.toU8]
  · intro L
    refine ⟨?_, ?_, ?_⟩
    · intro h1
      rw [write_ext_map_len, if_pos h1]
      simp [Format.set_format, Format.to_u8, u8Bytes]
    · intro h1 h2
      rw [write_ext_map_len, if_neg (by omega), if_pos h2]
      simp [Format.set_format, Format.to_u8]
    · intro h1
      rw [write_ext_map_len, if_neg (by omega), if_neg (by omega)]
      simp [Format.set_format, Format.to_u8]

theorem c4_witness :
    struct_serializer_end [("a", [2])] = [0x81, 0xa1, 0x61, 2]
    ∧ map_serializer_end [([1], [2])] = [0xc7, 3, 1, 0x81, 1, 2] := by
  constructor
  · have h1 := (c4_struct_bare_map_vs_generic_map_envelope [("a", [2])]
      [([1], [2])]).1 (by decide)
    rw [h1]
    simp [serialize_str, utf8Encode, utf8EncodeChar, Format.set_format,
      Format.to_u8]
  · have h2 := (c4_struct_bare_map_vs_generic_map_envelope [("a", [2])]
      [([1], [2])]).2.2.2.1
    rw [h2]
    simp [write_ext_map_len, write_map_length, Format.set_format,
      Format.to_u8, u8Bytes]

/-- C10: `serialize_str` chooses among `FixStr/Str8/Str16/Str32` and fills
the length header using the string's UTF-8 *byte* length (`v.len()`), not
its character count, and the payload after the header is exactly the UTF-8
bytes; in particular a string whose character count is below 32 but whose
UTF-8 encoding is 32 bytes or more is emitted in the `Str8` (or wider)
form. -/
theorem c10_string_length_is_byte_length (s : String)
    (h : (utf8Encode s).length < 2 ^ 32) :
    (serialize_str s
        = write_string_length (utf8Encode s).length ++ utf8Encode s)
    ∧ ((utf8Encode s).length < 32 → serialize_str s
        = (0xa0 + (utf8Encode s).length) :: utf8Encode s)
    ∧ (32 ≤ (utf8Encode s).length → (utf8Encode s).length ≤ 0xff →
        serialize_str s
          = 0xd9 :: (utf8Encode s).length :: utf8Encode s)
    ∧ (0xff < (utf8Encode s).length → (utf8Encode s).length ≤ 0xffff →
        serialize_str s
          = (0xda :: u16Bytes (utf8Encode s).length) ++ utf8Encode s)
    ∧ (0xffff < (utf8Encode s).length → serialize_str s
        = (0xdb :: u32Bytes (utf8Encode s).length) ++ utf8Encode s)
    ∧ (s.data.length < 32 → 32 ≤ (utf8Encode s).length →
        (serialize_str s).head?
          = some (if (utf8Encode s).length ≤ 0xff then 0xd9
              else if (utf8Encode s).length ≤ 0xffff then 0xda
              else 0xdb)) := by
  have hm : (utf8Encode s).length % 2 ^ 32 = (utf8Encode s).length :=
    Nat.mod_eq_of_lt h
  have h2 : 32 ≤ (utf8Encode s).length → (utf8Encode s).length ≤ 0xff →
      serialize_str s = 0xd9 :: (utf8Encode s).length :: utf8Encode s := by
    intro hlo hhi
    simp only [serialize_str, hm]
    rw [if_neg (by omega), if_pos hhi]
    simp [Format.set_format, Format.to_u8, u8Bytes]
    omega
  have h3 : 0xff < (utf8Encode s).length →
      (utf8Encode s).length ≤ 0xffff → serialize_str s
        = (0xda :: u16Bytes (utf8Encode s).length) ++ utf8Encode s := by
    intro hlo hhi
    simp only [serialize_str, hm]
    rw [if_neg (by omega), if_neg (by omega), if_pos hhi]
    simp [Format.set_format, Format.to_u8]
  have h4 : 0xffff < (utf8Encode s).length → serialize_str s
      = (0xdb :: u32Bytes (utf8Encode s).length) ++ utf8Encode s := by
    intro hlo
    simp only [serialize_str, hm]
    rw [if_neg (by omega), if_neg (by omega), if_neg (by omega)]
    simp [Format.set_format, Format.to_u8]
  refine ⟨?_, ?_, h2, h3, h4, ?_⟩
  · simp only [serialize_str, write_string_length, hm]
  · intro h1
    simp only [serialize_str, hm]
    rw [if_pos h1]
    simp [Format.set_format, Format.to_u8]
    omega
  · intro _ hge
    by_cases hb1 : (utf8Encode s).length ≤ 0xff
    · rw [h2 hge hb1, if_pos hb1]
      simp
    · by_cases hb2 : (utf8Encode s).length ≤ 0xffff
      · rw [h3 (by omega) hb2, if_neg hb1, if_pos hb2]
        simp
      · rw [h4 (by omega), if_neg hb1, if_neg hb2]
        simp

theorem c10_witness :
    ("€€€€€€€€€€€" : String).data.length = 11
    ∧ (utf8Encode "€€€€€€€€€€€").length = 33
    ∧ serialize_str "€€€€€€€€€€€"
      = 0xd9 :: 33 :: utf8Encode "€€€€€€€€€€€" := by
  refine ⟨by decide, ?_, ?_⟩
  · simp [utf8Encode, utf8EncodeChar]
  · have hl : (utf8Encode "€€€€€€€€€€€").length = 33 := by
      simp [utf8Encode, utf8EncodeChar]
    have h := (c10_string_length_is_byte_length "€€€€€€€€€€€"
      (by rw [hl]; omega)).2.2.1 (by rw [hl]; omega) (by rw [hl]; omega)
    rw [h, hl]

/-- C5 counterexample: the claim asserts that appending a non-empty suffix
to any valid encoding fails with `TrailingCharacters`; but for a generic
map — here the empty map, whose encoding is the valid envelope
`0xc7 0x01 0x01 0x80` — decoding with a suffix fails with `ExpectedExt`
instead (the map decode itself is rejected by `deserialize_map` before
the termination check can run). -/
theorem c5_counterexample_map_suffix :
    encodeValue (.vmap []) = [0xc7, 1, 1, 0x80]
    ∧ from_slice (.map .u8 .u8) ([0xc7, 1, 1, 0x80] ++ [0x00])
      = .error .expectedExt := by
  constructor
  · simp [encodeValue, encodePairs, write_map_length, write_ext_map_len,
      write_ext_map_type, Format.set_format, Format.to_u8, u8Bytes,
      ExtensionType.toU8]
  · simp [from_slice, decodeValue, read_ext_length_and_type,
      Format.get_format, Format.ofByte, readU8, ExtensionType.ofU8,
      Bind.bind, Except.bind]

/-- C5 (amended): `from_slice` returns the decoded root value exactly when
the decode consumed the whole buffer, fails with `TrailingCharacters` when
the decode succeeded but bytes remain, and propagates the decode's own
error otherwise; consequently, for every encoding of a value the decoder
accepts (`Good` — in particular any value containing no generic map and no
empty byte blob) and every non-empty suffix, decoding the encoding plus
the suffix fails with `TrailingCharacters`. -/
theorem c5_amended_trailing_characters :
    (∀ (sh : Shape) (b : List Nat) (v : Value) (rest : List Nat),
      decodeValue sh b = .ok (v, rest) →
        ((from_slice sh b = .ok v ↔ rest = [])
          ∧ (rest ≠ [] → from_slice sh b = .error .trailingCharacters)))
    ∧ (∀ (sh : Shape) (b : List Nat) (e : Err),
        decodeValue sh b = .error e → from_slice sh b = .error e)
    ∧ (∀ (sh : Shape) (v : Value) (s : List Nat), Good sh v = true →
        s ≠ [] →
        from_slice sh (encodeValue v ++ s)
          = .error .trailingCharacters) := by
  refine ⟨?_, ?_, ?_⟩
  · intro sh b v rest h
    cases rest with
    | nil => simp [from_slice, h]
    | cons a l => simp [from_slice, h]
  · intro sh b e h
    simp [from_slice, h]
  · intro sh v s hg hs
    have hd := decode_encode_good sh v hg s
    cases s with
    | nil => exact absurd rfl hs
    | cons a l => simp [from_slice, hd]

theorem c5_amended_witness :
    from_slice .bool (encodeValue (.vbool true) ++ [0x00])
      = .error .trailingCharacters :=
  c5_amended_trailing_characters.2.2 .bool (.vbool true) [0x00]
    (by simp [Good]) (by simp)

end MsgpackSerde
